import Mathlib

/-!
# multiboot-kernel64: `kernel_main` (src/main.c)

A shallow embedding of `kernel_main`: the magic check, the detection of a
VGA text-mode display from the Multiboot information block, and the two
loops that store the messages as (character, attribute) cells.

Conventions of the embedding

* Memory is byte addressed: `Mem` maps an address to the byte stored there.
  A byte load reduces the stored number modulo 256, wider loads are
  little-endian (x86-64).
* Pointers are 64-bit machine words: pointer arithmetic is `ptr_add`,
  addition modulo `2^64`.
* The members of `struct multiboot_info` are read from memory at
  `mb_info_ptr` plus the member's offset under the x86-64 ABI (natural
  alignment, no packing attribute in the source).
* `volatile` stores are recorded, in program order, in `State.trace`, and
  applied to `State.mem`.
* The arrays `msg1` and `msg2` are objects in the same memory: `msg1[i]` is
  a load from the array's address, performed after the stores of the
  earlier iterations. The addresses of the arrays are fixed by the linker,
  not by main.c, and are a parameter (`Image`).
-/

namespace Multiboot

/-! ## Memory and machine words -/

/-- Byte-addressed memory. -/
abbrev Mem := Nat → Nat

/-- Size of the address space: pointers are 64 bits wide. -/
def PTR_MOD : Nat := 18446744073709551616

/-- Pointer arithmetic on a 64-bit machine: `p + k` in a 64-bit register. -/
def ptr_add (p k : Nat) : Nat := (p + k) % PTR_MOD

/-- Load of one byte (`uint8_t`, or `char` compared for equality with an ASCII constant). -/
def load8 (mem : Mem) (a : Nat) : Nat := mem a % 256

/-- Little-endian load of a `uint32_t`. -/
def load32 (mem : Mem) (a : Nat) : Nat :=
  load8 mem a + 256 * load8 mem (ptr_add a 1) + 65536 * load8 mem (ptr_add a 2)
    + 16777216 * load8 mem (ptr_add a 3)

/-- Little-endian load of a `uint64_t`. -/
def load64 (mem : Mem) (a : Nat) : Nat :=
  load32 mem a + 4294967296 * load32 mem (ptr_add a 4)

/-- Memory after one byte store. -/
def write (mem : Mem) (a v : Nat) : Mem := fun x => if x = a then v else mem x

/-- Observable machine state: the memory, and the `volatile`
stores performed so far, oldest first, as (address, byte) pairs. -/
structure State where
  mem : Mem
  trace : List (Nat × Nat)

/-- One `volatile char` store `*ss = v`. -/
def vstore (st : State) (a v : Nat) : State :=
  { mem := write st.mem a v, trace := st.trace ++ [(a, v)] }

/-- Memory after a sequence of stores, applied oldest first. -/
def apply_stores (stores : List (Nat × Nat)) (mem : Mem) : Mem :=
  stores.foldl (fun m s => write m s.1 s.2) mem

/-! ## Constants of main.c -/

/-- Initialiser of `const char msg1[] = "WE ARE 64 BIT NOW"`, terminator included. -/
def msg1 : List Nat :=
  [87, 69, 32, 65, 82, 69, 32, 54, 52, 32, 66, 73, 84, 32, 78, 79, 87, 0]

/-- Initialiser of `const char msg2[] = "WOOHOO!"`, terminator included. -/
def msg2 : List Nat := [87, 79, 79, 72, 79, 79, 33, 0]

/-- Value of `sizeof(msg1)`. -/
def sizeof_msg1 : Nat := msg1.length

/-- Value of `sizeof(msg2)`. -/
def sizeof_msg2 : Nat := msg2.length

/-- The Multiboot 1 magic the loader leaves in `eax`. -/
def MB_MAGIC : Int := 0x2BADB002

/-- Addresses of the arrays `msg1` and `msg2` in the linked kernel image. -/
structure Image where
  msg1_addr : Nat
  msg2_addr : Nat

/-! ## Layout of `struct multiboot_info` -/

/-- Sizes in bytes of the scalar members of `struct multiboot_info`, in
declaration order, from `flags` up to and including `framebuffer_type`. -/
def member_sizes : List Nat :=
  [4, 4, 4, 4, 4, 4, 4,      -- flags .. mods_addr
   4, 4, 4, 4,               -- syms_*
   4, 4,                     -- mmap_*
   4, 4,                     -- drives_*
   4, 4, 4,                  -- config_table, boot_loader_name, apm_table
   4, 4, 2, 2, 2, 2,         -- vbe_*
   8, 4, 4, 4, 1, 1]         -- framebuffer_addr .. framebuffer_type

/-- Offsets of scalar members laid out in order, each aligned to its own size. -/
def layout_offsets : List Nat → Nat → List Nat
  | [], _ => []
  | s :: rest, off =>
    let o := (off + s - 1) / s * s
    o :: layout_offsets rest (o + s)

/-- Value of `offsetof(struct multiboot_info, flags)`. -/
def OFF_flags : Nat := 0
/-- Value of `offsetof(struct multiboot_info, boot_loader_name)`. -/
def OFF_boot_loader_name : Nat := 64
/-- Value of `offsetof(struct multiboot_info, framebuffer_addr)`. -/
def OFF_framebuffer_addr : Nat := 88
/-- Value of `offsetof(struct multiboot_info, framebuffer_pitch)`. -/
def OFF_framebuffer_pitch : Nat := 96
/-- Value of `offsetof(struct multiboot_info, framebuffer_type)`. -/
def OFF_framebuffer_type : Nat := 109
/-- Value of `sizeof(struct multiboot_info)`: the color-info union (size 8,
alignment 4) starts at 112. -/
def SIZEOF_multiboot_info : Nat := 120

/-- Read of `mb_info_ptr->flags`. -/
def mb_flags (mem : Mem) (mb_info_ptr : Nat) : Nat :=
  load32 mem (ptr_add mb_info_ptr OFF_flags)

/-- Read of `mb_info_ptr->boot_loader_name`. -/
def mb_boot_loader_name (mem : Mem) (mb_info_ptr : Nat) : Nat :=
  load32 mem (ptr_add mb_info_ptr OFF_boot_loader_name)

/-- Read of `mb_info_ptr->framebuffer_addr`. -/
def mb_framebuffer_addr (mem : Mem) (mb_info_ptr : Nat) : Nat :=
  load64 mem (ptr_add mb_info_ptr OFF_framebuffer_addr)

/-- Read of `mb_info_ptr->framebuffer_pitch`. -/
def mb_framebuffer_pitch (mem : Mem) (mb_info_ptr : Nat) : Nat :=
  load32 mem (ptr_add mb_info_ptr OFF_framebuffer_pitch)

/-- Read of `mb_info_ptr->framebuffer_type`. -/
def mb_framebuffer_type (mem : Mem) (mb_info_ptr : Nat) : Nat :=
  load8 mem (ptr_add mb_info_ptr OFF_framebuffer_type)

/-- The test `flags & (1u << k)` of main.c, as a truth value. -/
def flag_set (flags k : Nat) : Bool := flags &&& (1 <<< k) != 0

/-! ## kernel_main -/

/-- The local variables `have_tm`, `tm`, `tm_pitch` (main.c:77-79). `tm`
and `tm_pitch` are uninitialised in C until `have_tm` is set; they are
never read while `have_tm` is false, and are 0 here until then. -/
structure Locals where
  have_tm : Bool
  tm : Nat
  tm_pitch : Nat
  deriving DecidableEq, Repr

/-- Locals at main.c:77-79. -/
def locals_init : Locals := { have_tm := false, tm := 0, tm_pitch := 0 }

/-- First detection path, main.c:82-88. The assignment to the `uint16_t`
variable `tm_pitch` keeps the low 16 bits of the 32-bit member. -/
def check_framebuffer (mem : Mem) (mb_info_ptr : Nat) (l : Locals) : Locals :=
  if flag_set (mb_flags mem mb_info_ptr) 12 then
    if mb_framebuffer_type mem mb_info_ptr = 2 then
      { have_tm := true
        tm := mb_framebuffer_addr mem mb_info_ptr
        tm_pitch := mb_framebuffer_pitch mem mb_info_ptr % 65536 }
    else l
  else l

/-- The comparison of `bl_name[0..4]` with 'q','e','m','u',0 (main.c:93-94). -/
def is_qemu (mem : Mem) (bl_name : Nat) : Bool :=
  load8 mem bl_name == 113 && load8 mem (ptr_add bl_name 1) == 101
    && load8 mem (ptr_add bl_name 2) == 109 && load8 mem (ptr_add bl_name 3) == 117
    && load8 mem (ptr_add bl_name 4) == 0

/-- Second detection path, main.c:91-99. -/
def check_qemu (mem : Mem) (mb_info_ptr : Nat) (l : Locals) : Locals :=
  if !l.have_tm && flag_set (mb_flags mem mb_info_ptr) 9 then
    let bl_name := mb_boot_loader_name mem mb_info_ptr
    if is_qemu mem bl_name then
      { have_tm := true, tm := 0xB8000, tm_pitch := 160 }
    else l
  else l

/-- The locals at main.c:101, after both detection paths. -/
def detect_tm (mem : Mem) (mb_info_ptr : Nat) : Locals :=
  check_qemu mem mb_info_ptr (check_framebuffer mem mb_info_ptr locals_init)

/-- Body of both `for` loops (main.c:107-108, 113-114):
`*ss++ = msg[i]; *ss++ = 0x40;`, with `msg` the address of the array. The
character `msg[i]` is loaded from the current memory, that is after the
stores of the earlier iterations. The loop state is the pair (`ss`, machine
state). -/
def put_cell (msg : Nat) (acc : Nat × State) (i : Nat) : Nat × State :=
  let ss := acc.1
  let st := vstore acc.2 ss (load8 acc.2.mem (ptr_add msg i))
  let ss := ptr_add ss 1
  let st := vstore st ss 0x40
  let ss := ptr_add ss 1
  (ss, st)

/-- The loop `for (int i = 0; i < bound; i++) { *ss++ = msg[i]; *ss++ = 0x40; }`. -/
def put_msg (msg : Nat) (bound : Nat) (ss : Nat) (st : State) : Nat × State :=
  (List.range bound).foldl (put_cell msg) (ss, st)

/-- The rendering part of `kernel_main`, main.c:105-115. -/
def render (img : Image) (tm tm_pitch : Nat) (st : State) : State :=
  let ss := tm
  let r := put_msg img.msg1_addr (sizeof_msg1 - 1) ss st
  let ss := ptr_add tm tm_pitch
  let r := put_msg img.msg2_addr (sizeof_msg2 - 1) ss r.2
  r.2

/-- Function `kernel_main(mb_magic, mb_info_ptr)` of the image `img` run on
memory `mem`: the final memory and the stores performed. -/
def kernel_main (img : Image) (mb_magic : Int) (mb_info_ptr : Nat) (mem : Mem) : State :=
  let st : State := { mem := mem, trace := [] }
  if mb_magic ≠ MB_MAGIC then st
  else
    let l := detect_tm mem mb_info_ptr
    if !l.have_tm then st
    else render img l.tm l.tm_pitch st

/-! ## Helpers for concrete inputs -/

/-- Memory holding `bytes` from address `base` on and `fill` elsewhere. -/
def mem_of (base : Nat) (bytes : List Nat) (fill : Nat) : Mem :=
  fun a => if base ≤ a then bytes.getD (a - base) fill else fill

/-- Little-endian bytes of a 32-bit value. -/
def le32 (v : Nat) : List Nat :=
  [v % 256, v / 256 % 256, v / 65536 % 256, v / 16777216 % 256]

/-- Little-endian bytes of a 64-bit value. -/
def le64 (v : Nat) : List Nat := le32 (v % 4294967296) ++ le32 (v / 4294967296)

/-- Bytes of a `struct multiboot_info` with the given `flags`,
`boot_loader_name`, `framebuffer_addr`, `framebuffer_pitch` and
`framebuffer_type`; every other byte of the structure is `other`. -/
def boot_block (flags name addr pitch type other : Nat) : List Nat :=
  le32 flags ++ List.replicate 60 other ++ le32 name ++ List.replicate 20 other
    ++ le64 addr ++ le32 pitch ++ List.replicate 9 other ++ [type]
    ++ List.replicate 10 other

/-- The five bytes at address `a` are 'q', 'e', 'm', 'u', 0. -/
abbrev qemu_bytes (mem : Mem) (a : Nat) : Prop :=
  load8 mem a = 113 ∧ load8 mem (a + 1) = 101 ∧ load8 mem (a + 2) = 109 ∧
    load8 mem (a + 3) = 117 ∧ load8 mem (a + 4) = 0

/-- The first detection path applies: flags bit 12 is set and
`framebuffer_type` is 2 (text mode). -/
abbrev text_framebuffer (mem : Mem) (mb_info_ptr : Nat) : Prop :=
  flag_set (mb_flags mem mb_info_ptr) 12 = true ∧ mb_framebuffer_type mem mb_info_ptr = 2

/-- An image with `msg1` at 1 MiB and `msg2` right after it. -/
def scenario_image : Image := { msg1_addr := 0x100000, msg2_addr := 0x100012 }

/-- A memory with a boot block at 0x10000 (every unnamed byte of it 0), the
bytes `name` at 0x20000, the arrays of `scenario_image` from 0x100000 on,
and 0 elsewhere. -/
def scenario_mem (flags addr pitch type : Nat) (name : List Nat) : Mem :=
  fun a => if 0x100000 ≤ a then (msg1 ++ msg2).getD (a - 0x100000) 0
    else if 0x20000 ≤ a then name.getD (a - 0x20000) 0
    else mem_of 0x10000 (boot_block flags 0x20000 addr pitch type 0) 0 a

/-- The arrays of the image hold their initialisers in memory `mem`. -/
def image_loaded (img : Image) (mem : Mem) : Prop :=
  (∀ i, i < sizeof_msg1 → load8 mem (ptr_add img.msg1_addr i) = msg1.getD i 0) ∧
  (∀ j, j < sizeof_msg2 → load8 mem (ptr_add img.msg2_addr j) = msg2.getD j 0)

/-- The actual stores of `n` iterations of the cell loop started at `ss` on
memory `mem`, for the array at address `msg`: iteration `k` stores at
`ss + 2k` the byte found at `msg + k` after the stores of the iterations
before it, and the attribute `0x40` at `ss + 2k + 1`. -/
def cell_trace (msg ss : Nat) (mem : Mem) : Nat → List (Nat × Nat)
  | 0 => []
  | n + 1 =>
    cell_trace msg ss mem n ++
      [(ptr_add ss (2 * n), load8 (apply_stores (cell_trace msg ss mem n) mem) (ptr_add msg n)),
       (ptr_add ss (2 * n + 1), 0x40)]

/-- The actual stores of `render` on memory `mem`. -/
def render_trace (img : Image) (tm tm_pitch : Nat) (mem : Mem) : List (Nat × Nat) :=
  cell_trace img.msg1_addr tm mem 17 ++
    cell_trace img.msg2_addr (ptr_add tm tm_pitch)
      (apply_stores (cell_trace img.msg1_addr tm mem 17) mem) 7

/-- The stores of `n` iterations of the cell loop started at `ss` when the
array holds the bytes `msg` throughout: iteration
`k` stores `msg[k]` at `ss + 2k` and the attribute `0x40` at `ss + 2k + 1`. -/
def cell_stores (msg : List Nat) (ss : Nat) : Nat → List (Nat × Nat)
  | 0 => []
  | n + 1 =>
    cell_stores msg ss n ++ [(ptr_add ss (2 * n), msg.getD n 0), (ptr_add ss (2 * n + 1), 0x40)]

/-- The stores of `render` when both arrays hold their initialisers
throughout: the cells of `msg1` from `tm`, then the cells of `msg2` from
`tm + tm_pitch`. -/
def render_stores (tm tm_pitch : Nat) : List (Nat × Nat) :=
  cell_stores msg1 tm 17 ++ cell_stores msg2 (ptr_add tm tm_pitch) 7

/-- Row 0 of the round trip: in memory `m`, for every `i < 17` the byte at
`A + 2i` is `msg1[i]` and the byte at `A + 2i + 1` is 0x40 (addresses in
64-bit pointer arithmetic). -/
def round_trip_row0 (m : Mem) (A : Nat) : Prop :=
  ∀ i, i < 17 → m (ptr_add A (2 * i)) = msg1.getD i 0 ∧ m (ptr_add A (2 * i + 1)) = 0x40

/-- Row 1 of the round trip: in memory `m`, for every `j < 7` the byte at
`A + P + 2j` is `msg2[j]` and the byte at `A + P + 2j + 1` is 0x40. -/
def round_trip_row1 (m : Mem) (A P : Nat) : Prop :=
  ∀ j, j < 7 → m (ptr_add A (P + 2 * j)) = msg2.getD j 0 ∧
    m (ptr_add A (P + 2 * j + 1)) = 0x40

/-- The round trip of the specification for a display target `(A, P)`. -/
def round_trip (m : Mem) (A P : Nat) : Prop :=
  round_trip_row0 m A ∧ round_trip_row1 m A P

/-- Address `a` is one of the `sizeof(struct multiboot_info)` bytes of the
boot information block at `p`. -/
def in_boot_block (p a : Nat) : Prop :=
  ∃ k, k < SIZEOF_multiboot_info ∧ a = ptr_add p k

/-- Two memories hold the same bytes outside the boot information block at `p`. -/
def same_outside_block (m1 m2 : Mem) (p : Nat) : Prop :=
  ∀ a, ¬ in_boot_block p a → m1 a = m2 a

/-- The boot blocks at `p` in `m1` and `m2` agree on flags bits 9 and 12, on
`framebuffer_addr`, `framebuffer_pitch` and `framebuffer_type` when bit 12 is
set, and on `boot_loader_name` when bit 9 is set and no text-mode
framebuffer is accepted. -/
def same_gated_fields (m1 m2 : Mem) (p : Nat) : Prop :=
  flag_set (mb_flags m1 p) 9 = flag_set (mb_flags m2 p) 9 ∧
  flag_set (mb_flags m1 p) 12 = flag_set (mb_flags m2 p) 12 ∧
  (flag_set (mb_flags m1 p) 12 = true →
    mb_framebuffer_addr m1 p = mb_framebuffer_addr m2 p ∧
    mb_framebuffer_pitch m1 p = mb_framebuffer_pitch m2 p ∧
    mb_framebuffer_type m1 p = mb_framebuffer_type m2 p) ∧
  (flag_set (mb_flags m1 p) 9 = true → ¬ text_framebuffer m1 p →
    mb_boot_loader_name m1 p = mb_boot_loader_name m2 p)

/-- A memory whose boot block at 0x10000 has flags = 0x200 and
`boot_loader_name` = 0x10004, the address of its own members `mem_lower`
and `mem_upper`, which hold the five bytes `name`; the arrays of
`scenario_image` lie from 0x100000 on. -/
def alias_mem (name : List Nat) : Mem :=
  fun a => if 0x10004 ≤ a ∧ a < 0x10009 then name.getD (a - 0x10004) 0
    else if 0x100000 ≤ a then (msg1 ++ msg2).getD (a - 0x100000) 0
    else mem_of 0x10000 (boot_block 0x200 0x10004 0 0 0 0) 0 a

/-- Address `a` is one of the 34 bytes of row 0 from `A` on or one of the
14 bytes of row 1 from `A + P` on (addresses in 64-bit pointer arithmetic). -/
def in_rows (A P a : Nat) : Prop :=
  (∃ x, x < 34 ∧ a = ptr_add A x) ∨ (∃ y, y < 14 ∧ a = ptr_add A (P + y))

/-- None of the bytes `msg1[0..16]` and `msg2[0..6]` that `kernel_main` loads
lies in the rows of the display target `(A, P)`. -/
def msgs_clear_of_rows (img : Image) (A P : Nat) : Prop :=
  (∀ i, i < 17 → ¬ in_rows A P (ptr_add img.msg1_addr i)) ∧
  (∀ j, j < 7 → ¬ in_rows A P (ptr_add img.msg2_addr j))

/-- Address `a` lies in row `r` of the legacy text buffer at 0xB8000, with
80 cells of 2 bytes per row. -/
def in_text_row (r a : Nat) : Prop :=
  0xB8000 + 160 * r ≤ a ∧ a < 0xB8000 + 160 * (r + 1)

/-- Address `a` lies in the 80x25 legacy text buffer, 4000 bytes from 0xB8000. -/
def in_text_buffer (a : Nat) : Prop :=
  0xB8000 ≤ a ∧ a < 0xB8000 + 4000

/-! ## Pointer arithmetic and loads -/

theorem ptr_add_lt (p k : Nat) : ptr_add p k < PTR_MOD := by
  unfold ptr_add PTR_MOD
  omega

theorem ptr_add_ptr_add (p j k : Nat) : ptr_add (ptr_add p j) k = ptr_add p (j + k) := by
  unfold ptr_add PTR_MOD
  omega

theorem ptr_add_zero {p : Nat} (h : p < PTR_MOD) : ptr_add p 0 = p := by
  unfold ptr_add PTR_MOD at *
  omega

theorem ptr_add_eq_add {p k : Nat} (h : p + k < PTR_MOD) : ptr_add p k = p + k := by
  unfold ptr_add PTR_MOD at *
  omega

theorem ptr_add_inj {p j k : Nat} (hj : j < PTR_MOD) (hk : k < PTR_MOD) :
    ptr_add p j = ptr_add p k ↔ j = k := by
  unfold ptr_add PTR_MOD at *
  omega

/-- The test `flags & (1u << k)` is non-zero exactly when bit `k` of `flags` is set. -/
theorem flag_set_eq_testBit (flags k : Nat) : flag_set flags k = flags.testBit k := by
  unfold flag_set
  rw [Nat.one_shiftLeft]
  by_cases h : flags.testBit k = true
  · rw [h]
    have hb : (flags &&& 2 ^ k).testBit k = true := by
      rw [Nat.testBit_and, h, Nat.testBit_two_pow_self]; rfl
    have hne : flags &&& 2 ^ k ≠ 0 := by
      intro e
      rw [e] at hb
      simp at hb
    simpa using hne
  · have hf : flags.testBit k = false := by simpa using h
    rw [hf]
    have hz : flags &&& 2 ^ k = 0 := by
      apply Nat.eq_of_testBit_eq
      intro i
      rw [Nat.testBit_and, Nat.testBit_two_pow]
      by_cases hik : k = i
      · subst hik; simp [hf]
      · simp [hik]
    simp [hz]

/-- The member offsets used by the reads are those of the declaration laid
out with natural alignment. -/
theorem offsets_from_layout :
    (layout_offsets member_sizes 0)[0]? = some OFF_flags ∧
    (layout_offsets member_sizes 0)[16]? = some OFF_boot_loader_name ∧
    (layout_offsets member_sizes 0)[24]? = some OFF_framebuffer_addr ∧
    (layout_offsets member_sizes 0)[25]? = some OFF_framebuffer_pitch ∧
    (layout_offsets member_sizes 0)[29]? = some OFF_framebuffer_type := by
  decide

/-- The byte lists are the string literals of main.c with their terminator. -/
theorem msg_bytes :
    msg1 = "WE ARE 64 BIT NOW".toList.map Char.toNat ++ [0] ∧
    msg2 = "WOOHOO!".toList.map Char.toNat ++ [0] := by
  decide

theorem load8_lt (mem : Mem) (a : Nat) : load8 mem a < 256 := by
  unfold load8
  omega

theorem load32_lt (mem : Mem) (a : Nat) : load32 mem a < 4294967296 := by
  have h0 := load8_lt mem a
  have h1 := load8_lt mem (ptr_add a 1)
  have h2 := load8_lt mem (ptr_add a 2)
  have h3 := load8_lt mem (ptr_add a 3)
  unfold load32
  omega

theorem load64_lt (mem : Mem) (a : Nat) : load64 mem a < PTR_MOD := by
  have h0 := load32_lt mem a
  have h1 := load32_lt mem (ptr_add a 4)
  unfold load64 PTR_MOD
  omega

/-! ## Stores -/

theorem apply_stores_append (l₁ l₂ : List (Nat × Nat)) (m : Mem) :
    apply_stores (l₁ ++ l₂) m = apply_stores l₂ (apply_stores l₁ m) := by
  simp [apply_stores, List.foldl_append]

/-- An address no store of the list targets keeps its byte. -/
theorem apply_stores_frame (l : List (Nat × Nat)) (m : Mem) (x : Nat)
    (h : ∀ s ∈ l, s.1 ≠ x) : apply_stores l m x = m x := by
  induction l generalizing m with
  | nil => rfl
  | cons s t ih =>
    have hs : x ≠ s.1 := fun e => h s (List.mem_cons_self _ _) e.symm
    have ht : ∀ r ∈ t, r.1 ≠ x := fun r hr => h r (List.mem_cons_of_mem _ hr)
    show apply_stores t (write m s.1 s.2) x = m x
    rw [ih _ ht]
    simp [write, hs]

theorem mem_cell_stores {msg : List Nat} {ss n : Nat} {s : Nat × Nat}
    (h : s ∈ cell_stores msg ss n) : ∃ j, j < 2 * n ∧ s.1 = ptr_add ss j := by
  induction n with
  | zero => simp [cell_stores] at h
  | succ n ih =>
    simp only [cell_stores, List.mem_append, List.mem_cons, List.mem_singleton,
      List.not_mem_nil, or_false] at h
    rcases h with h | h | h
    · obtain ⟨j, hj, e⟩ := ih h
      exact ⟨j, by omega, e⟩
    · exact ⟨2 * n, by omega, by rw [h]⟩
    · exact ⟨2 * n + 1, by omega, by rw [h]⟩

theorem cell_stores_length (msg : List Nat) (ss n : Nat) :
    (cell_stores msg ss n).length = 2 * n := by
  induction n with
  | zero => rfl
  | succ n ih => simp [cell_stores, ih]; omega

/-- Frame of the cell loop: an address that is none of `ss + j`, `j < 2n`,
keeps its byte. -/
theorem apply_cell_stores_frame (msg : List Nat) (ss n : Nat) (m : Mem) (x : Nat)
    (h : ∀ j, j < 2 * n → x ≠ ptr_add ss j) :
    apply_stores (cell_stores msg ss n) m x = m x := by
  apply apply_stores_frame
  intro s hs e
  obtain ⟨j, hj, e'⟩ := mem_cell_stores hs
  exact h j hj (by rw [← e, e'])

theorem apply_stores_pair (a v b w : Nat) (m : Mem) (x : Nat) :
    apply_stores [(a, v), (b, w)] m x = if x = b then w else if x = a then v else m x := rfl

/-- After the cell loop the character bytes and attribute bytes are in place. -/
theorem apply_cell_stores_get (msg : List Nat) (ss n : Nat) (m : Mem)
    (hn : 2 * n ≤ PTR_MOD) (k : Nat) (hk : k < n) :
    apply_stores (cell_stores msg ss n) m (ptr_add ss (2 * k)) = msg.getD k 0 ∧
    apply_stores (cell_stores msg ss n) m (ptr_add ss (2 * k + 1)) = 0x40 := by
  induction n with
  | zero => omega
  | succ n ih =>
    have hne : ptr_add ss (2 * n) ≠ ptr_add ss (2 * n + 1) := by
      rw [Ne, ptr_add_inj (by omega) (by omega)]; omega
    simp only [cell_stores, apply_stores_append, apply_stores_pair]
    by_cases hkn : k < n
    · obtain ⟨h1, h2⟩ := ih (by omega) hkn
      have e1 : ptr_add ss (2 * k) ≠ ptr_add ss (2 * n) := by
        rw [Ne, ptr_add_inj (by omega) (by omega)]; omega
      have e2 : ptr_add ss (2 * k) ≠ ptr_add ss (2 * n + 1) := by
        rw [Ne, ptr_add_inj (by omega) (by omega)]; omega
      have e3 : ptr_add ss (2 * k + 1) ≠ ptr_add ss (2 * n) := by
        rw [Ne, ptr_add_inj (by omega) (by omega)]; omega
      have e4 : ptr_add ss (2 * k + 1) ≠ ptr_add ss (2 * n + 1) := by
        rw [Ne, ptr_add_inj (by omega) (by omega)]; omega
      rw [if_neg e2, if_neg e1, if_neg e4, if_neg e3]
      exact ⟨h1, h2⟩
    · have e : k = n := by omega
      subst e
      rw [if_neg hne, if_pos rfl, if_pos rfl]
      exact ⟨rfl, rfl⟩

/-! ## The loops and the rendering -/

theorem put_msg_succ (msg : Nat) (n ss : Nat) (st : State) :
    put_msg msg (n + 1) ss st = put_cell msg (put_msg msg n ss st) n := by
  simp [put_msg, List.range_succ, List.foldl_append]

/-- The cell loop, run for `n` iterations from a 64-bit pointer `ss`. -/
theorem put_msg_eq (msg : Nat) (n ss : Nat) (st : State) (hss : ss < PTR_MOD) :
    put_msg msg n ss st =
      (ptr_add ss (2 * n),
        { mem := apply_stores (cell_trace msg ss st.mem n) st.mem
          trace := st.trace ++ cell_trace msg ss st.mem n }) := by
  induction n with
  | zero => simp [put_msg, cell_trace, apply_stores, ptr_add_zero hss]
  | succ n ih =>
    rw [put_msg_succ, ih]
    simp [put_cell, vstore, cell_trace, apply_stores_append, apply_stores, ptr_add_ptr_add,
      Nat.mul_add]

theorem render_eq (img : Image) (tm tm_pitch : Nat) (st : State) (htm : tm < PTR_MOD) :
    render img tm tm_pitch st =
      { mem := apply_stores (render_trace img tm tm_pitch st.mem) st.mem
        trace := st.trace ++ render_trace img tm tm_pitch st.mem } := by
  have h1 : sizeof_msg1 - 1 = 17 := by decide
  have h2 : sizeof_msg2 - 1 = 7 := by decide
  simp only [render, h1, h2, put_msg_eq _ _ _ _ htm, put_msg_eq _ _ _ _ (ptr_add_lt _ _),
    render_trace, apply_stores_append, List.append_assoc]

/-- The store addresses of the cell loop do not depend on the bytes loaded. -/
theorem cell_trace_addrs (msg ss : Nat) (mem : Mem) (vals : List Nat) (n : Nat) :
    (cell_trace msg ss mem n).map Prod.fst = (cell_stores vals ss n).map Prod.fst := by
  induction n with
  | zero => rfl
  | succ n ih => simp [cell_trace, cell_stores, ih]

theorem cell_trace_length (msg ss : Nat) (mem : Mem) (n : Nat) :
    (cell_trace msg ss mem n).length = 2 * n := by
  have h := congrArg List.length (cell_trace_addrs msg ss mem [] n)
  rw [List.length_map, List.length_map, cell_stores_length] at h
  exact h

theorem mem_cell_trace {msg ss : Nat} {mem : Mem} {n : Nat} {s : Nat × Nat}
    (h : s ∈ cell_trace msg ss mem n) : ∃ j, j < 2 * n ∧ s.1 = ptr_add ss j := by
  have h1 : s.1 ∈ (cell_trace msg ss mem n).map Prod.fst := List.mem_map_of_mem _ h
  rw [cell_trace_addrs msg ss mem [] n, List.mem_map] at h1
  obtain ⟨r, hr, e⟩ := h1
  obtain ⟨j, hj, e'⟩ := mem_cell_stores hr
  exact ⟨j, hj, by rw [← e, e']⟩

/-- Frame of the cell loop: an address that is none of `ss + j`, `j < 2n`,
keeps its byte. -/
theorem apply_cell_trace_frame (msg ss n : Nat) (mem m : Mem) (x : Nat)
    (h : ∀ j, j < 2 * n → x ≠ ptr_add ss j) :
    apply_stores (cell_trace msg ss mem n) m x = m x := by
  apply apply_stores_frame
  intro s hs e
  obtain ⟨j, hj, e'⟩ := mem_cell_trace hs
  exact h j hj (by rw [← e, e'])

/-- When the bytes loaded lie outside the row written and hold `vals`, the
cell loop stores the cells of `vals`. -/
theorem cell_trace_eq_stores (msg ss : Nat) (mem : Mem) (vals : List Nat) (n : Nat)
    (hval : ∀ k, k < n → load8 mem (ptr_add msg k) = vals.getD k 0)
    (hclear : ∀ k, k < n → ∀ j, j < 2 * n → ptr_add msg k ≠ ptr_add ss j) :
    cell_trace msg ss mem n = cell_stores vals ss n := by
  induction n with
  | zero => rfl
  | succ n ih =>
    have ih' := ih (fun k hk => hval k (by omega))
      (fun k hk j hj => hclear k (by omega) j (by omega))
    have hfr := apply_cell_stores_frame vals ss n mem (ptr_add msg n)
      (fun j hj => hclear n (by omega) j (by omega))
    have hv := hval n (by omega)
    simp only [cell_trace, cell_stores]
    rw [ih']
    have e : load8 (apply_stores (cell_stores vals ss n) mem) (ptr_add msg n)
        = vals.getD n 0 := by
      unfold load8 at hv ⊢
      rw [hfr]
      exact hv
    rw [e]

/-- The same stores leave two memories in agreement on a byte they agreed on. -/
theorem load8_apply_stores_congr (t : List (Nat × Nat)) (m1 m2 : Mem) (x : Nat)
    (h : load8 m1 x = load8 m2 x) :
    load8 (apply_stores t m1) x = load8 (apply_stores t m2) x := by
  induction t generalizing m1 m2 with
  | nil => exact h
  | cons s t ih =>
    show load8 (apply_stores t (write m1 s.1 s.2)) x = load8 (apply_stores t (write m2 s.1 s.2)) x
    apply ih
    unfold load8 write at *
    by_cases hx : x = s.1
    · simp only [if_pos hx]
    · simp only [if_neg hx]
      exact h

/-- The cell loop stores the same bytes on two memories that agree on the
bytes of the array it loads. -/
theorem cell_trace_congr (msg ss : Nat) (m1 m2 : Mem) (n : Nat)
    (h : ∀ k, k < n → load8 m1 (ptr_add msg k) = load8 m2 (ptr_add msg k)) :
    cell_trace msg ss m1 n = cell_trace msg ss m2 n := by
  induction n with
  | zero => rfl
  | succ n ih =>
    have ih' := ih (fun k hk => h k (by omega))
    simp only [cell_trace]
    rw [ih', load8_apply_stores_congr _ m1 m2 _ (h n (by omega))]

/-- The stores of `render` agree on two memories that agree on the bytes
loaded from the arrays. -/
theorem render_trace_congr (img : Image) (A P : Nat) (m1 m2 : Mem)
    (h1 : ∀ i, i < 17 → load8 m1 (ptr_add img.msg1_addr i) = load8 m2 (ptr_add img.msg1_addr i))
    (h2 : ∀ j, j < 7 → load8 m1 (ptr_add img.msg2_addr j) = load8 m2 (ptr_add img.msg2_addr j)) :
    render_trace img A P m1 = render_trace img A P m2 := by
  unfold render_trace
  have e1 := cell_trace_congr img.msg1_addr A m1 m2 17 h1
  rw [e1]
  rw [cell_trace_congr img.msg2_addr (ptr_add A P)
    (apply_stores (cell_trace img.msg1_addr A m2 17) m1)
    (apply_stores (cell_trace img.msg1_addr A m2 17) m2) 7
    (fun j hj => load8_apply_stores_congr _ m1 m2 _ (h2 j hj))]

/-- The store addresses of `render` are those of `render_stores`. -/
theorem render_trace_addrs (img : Image) (A P : Nat) (mem : Mem) :
    (render_trace img A P mem).map Prod.fst = (render_stores A P).map Prod.fst := by
  unfold render_trace render_stores
  rw [List.map_append, List.map_append, cell_trace_addrs _ _ _ msg1, cell_trace_addrs _ _ _ msg2]

theorem render_trace_addr (img : Image) (A P : Nat) (mem : Mem) (k : Nat) :
    ((render_trace img A P mem)[k]?).map Prod.fst = ((render_stores A P)[k]?).map Prod.fst := by
  rw [← List.getElem?_map, ← List.getElem?_map, render_trace_addrs]

theorem render_trace_length (img : Image) (A P : Nat) (mem : Mem) :
    (render_trace img A P mem).length = 48 := by
  simp [render_trace, cell_trace_length]

/-- When the arrays hold their initialisers and lie clear of both rows,
`render` stores exactly the cells of the two messages. -/
theorem render_trace_eq_stores (img : Image) (A P : Nat) (mem : Mem)
    (himg : image_loaded img mem) (hclear : msgs_clear_of_rows img A P) :
    render_trace img A P mem = render_stores A P := by
  unfold render_trace render_stores
  have e1 : cell_trace img.msg1_addr A mem 17 = cell_stores msg1 A 17 := by
    apply cell_trace_eq_stores
    · intro k hk
      exact himg.1 k (by unfold sizeof_msg1; simp [msg1]; omega)
    · intro k hk j hj e
      exact hclear.1 k hk (Or.inl ⟨j, by omega, e⟩)
  rw [e1]
  have e2 : cell_trace img.msg2_addr (ptr_add A P) (apply_stores (cell_stores msg1 A 17) mem) 7
      = cell_stores msg2 (ptr_add A P) 7 := by
    apply cell_trace_eq_stores
    · intro k hk
      have hfr := apply_cell_stores_frame msg1 A 17 mem (ptr_add img.msg2_addr k)
        (fun j hj e => hclear.2 k hk (Or.inl ⟨j, by omega, e⟩))
      have hv := himg.2 k (by unfold sizeof_msg2; simp [msg2]; omega)
      unfold load8 at hv ⊢
      rw [hfr]
      exact hv
    · intro k hk j hj e
      rw [ptr_add_ptr_add] at e
      exact hclear.2 k hk (Or.inr ⟨j, by omega, e⟩)
  rw [e2]

/-! ## Detection -/

theorem check_framebuffer_init (mem : Mem) (p : Nat) :
    check_framebuffer mem p locals_init =
      if flag_set (mb_flags mem p) 12 = true ∧ mb_framebuffer_type mem p = 2 then
        { have_tm := true, tm := mb_framebuffer_addr mem p,
          tm_pitch := mb_framebuffer_pitch mem p % 65536 }
      else locals_init := by
  unfold check_framebuffer
  by_cases h1 : flag_set (mb_flags mem p) 12 = true <;>
    by_cases h2 : mb_framebuffer_type mem p = 2 <;> simp [h1, h2]

/-- The detected base is a 64-bit pointer and the pitch a 16-bit value. -/
theorem detect_tm_bounds (mem : Mem) (p : Nat) :
    (detect_tm mem p).tm < PTR_MOD ∧ (detect_tm mem p).tm_pitch < 65536 := by
  have ha := load64_lt mem (ptr_add p OFF_framebuffer_addr)
  have hp : mb_framebuffer_pitch mem p % 65536 < 65536 := Nat.mod_lt _ (by decide)
  unfold detect_tm check_qemu
  rw [check_framebuffer_init]
  unfold mb_framebuffer_addr
  by_cases hq : is_qemu mem (mb_boot_loader_name mem p) = true <;>
    split_ifs <;> simp_all [locals_init, PTR_MOD]

theorem kernel_main_detected (img : Image) (mb_magic : Int) (p : Nat) (mem : Mem)
    (hmagic : mb_magic = MB_MAGIC) (hdet : (detect_tm mem p).have_tm = true) :
    kernel_main img mb_magic p mem =
      { mem := apply_stores
          (render_trace img (detect_tm mem p).tm (detect_tm mem p).tm_pitch mem) mem
        trace := render_trace img (detect_tm mem p).tm (detect_tm mem p).tm_pitch mem } := by
  unfold kernel_main
  simp [hmagic, hdet, render_eq _ _ _ _ (detect_tm_bounds mem p).1]

/-- The stores of a call that detects a display target. -/
theorem kernel_main_trace (img : Image) (p : Nat) (mem : Mem)
    (hdet : (detect_tm mem p).have_tm = true) :
    (kernel_main img 0x2BADB002 p mem).trace =
      render_trace img (detect_tm mem p).tm (detect_tm mem p).tm_pitch mem := by
  rw [kernel_main_detected img 0x2BADB002 p mem rfl hdet]

/-- The memory after a call is the initial memory with the stores applied in order. -/
theorem kernel_main_mem_trace (img : Image) (p : Nat) (mem : Mem)
    (hdet : (detect_tm mem p).have_tm = true) :
    (kernel_main img 0x2BADB002 p mem).mem =
      apply_stores (kernel_main img 0x2BADB002 p mem).trace mem := by
  rw [kernel_main_detected img 0x2BADB002 p mem rfl hdet]

/-- The stores of a call that detects a display target, when the arrays hold
their initialisers and lie clear of the rows. -/
theorem kernel_main_trace_clear (img : Image) (p : Nat) (mem : Mem)
    (hdet : (detect_tm mem p).have_tm = true) (himg : image_loaded img mem)
    (hclear : msgs_clear_of_rows img (detect_tm mem p).tm (detect_tm mem p).tm_pitch) :
    (kernel_main img 0x2BADB002 p mem).trace =
      render_stores (detect_tm mem p).tm (detect_tm mem p).tm_pitch := by
  rw [kernel_main_trace img p mem hdet, render_trace_eq_stores img _ _ mem himg hclear]

/-- The memory after such a call. -/
theorem kernel_main_mem (img : Image) (p : Nat) (mem : Mem)
    (hdet : (detect_tm mem p).have_tm = true) (himg : image_loaded img mem)
    (hclear : msgs_clear_of_rows img (detect_tm mem p).tm (detect_tm mem p).tm_pitch) :
    (kernel_main img 0x2BADB002 p mem).mem =
      apply_stores (render_stores (detect_tm mem p).tm (detect_tm mem p).tm_pitch) mem := by
  rw [kernel_main_mem_trace img p mem hdet, kernel_main_trace_clear img p mem hdet himg hclear]

/-- Frame of a call that detects a display target: an address outside the
two rows keeps its byte. -/
theorem kernel_main_frame (img : Image) (p : Nat) (mem : Mem)
    (hdet : (detect_tm mem p).have_tm = true) (a : Nat)
    (ha : ¬ in_rows (detect_tm mem p).tm (detect_tm mem p).tm_pitch a) :
    (kernel_main img 0x2BADB002 p mem).mem a = mem a := by
  rw [kernel_main_mem_trace img p mem hdet, kernel_main_trace img p mem hdet]
  unfold render_trace
  rw [apply_stores_append,
    apply_cell_trace_frame img.msg2_addr
      (ptr_add (detect_tm mem p).tm (detect_tm mem p).tm_pitch) 7 _ _ a (by
        intro j hj e
        rw [ptr_add_ptr_add] at e
        exact ha (Or.inr ⟨j, by omega, e⟩)),
    apply_cell_trace_frame img.msg1_addr (detect_tm mem p).tm 17 mem mem a (by
        intro j hj e
        exact ha (Or.inl ⟨j, by omega, e⟩))]

theorem is_qemu_iff (mem : Mem) (a : Nat) (ha : a < 4294967296) :
    is_qemu mem a = true ↔ qemu_bytes mem a := by
  have e1 : ptr_add a 1 = a + 1 := ptr_add_eq_add (by unfold PTR_MOD; omega)
  have e2 : ptr_add a 2 = a + 2 := ptr_add_eq_add (by unfold PTR_MOD; omega)
  have e3 : ptr_add a 3 = a + 3 := ptr_add_eq_add (by unfold PTR_MOD; omega)
  have e4 : ptr_add a 4 = a + 4 := ptr_add_eq_add (by unfold PTR_MOD; omega)
  simp [is_qemu, qemu_bytes, e1, e2, e3, e4, and_assoc]

/-- The outcome of detection, by cases on the two paths. -/
theorem detect_tm_eq (mem : Mem) (p : Nat) :
    detect_tm mem p =
      if text_framebuffer mem p then
        { have_tm := true, tm := mb_framebuffer_addr mem p,
          tm_pitch := mb_framebuffer_pitch mem p % 65536 }
      else if flag_set (mb_flags mem p) 9 = true ∧ qemu_bytes mem (mb_boot_loader_name mem p) then
        { have_tm := true, tm := 0xB8000, tm_pitch := 160 }
      else locals_init := by
  have hq := is_qemu_iff mem (mb_boot_loader_name mem p) (load32_lt _ _)
  unfold detect_tm check_qemu
  rw [check_framebuffer_init]
  by_cases hfb : text_framebuffer mem p
  · have hfb' := hfb
    unfold text_framebuffer at hfb'
    simp only [if_pos hfb, if_pos hfb']
    simp
  · have hfb' := hfb
    unfold text_framebuffer at hfb'
    simp only [if_neg hfb, if_neg hfb']
    by_cases h9 : flag_set (mb_flags mem p) 9 = true
    · by_cases hn : is_qemu mem (mb_boot_loader_name mem p) = true
      · have hc : flag_set (mb_flags mem p) 9 = true ∧
            qemu_bytes mem (mb_boot_loader_name mem p) := ⟨h9, hq.mp hn⟩
        simp only [if_pos hc]
        simp [locals_init, h9, hn]
      · have hc : ¬ (flag_set (mb_flags mem p) 9 = true ∧
            qemu_bytes mem (mb_boot_loader_name mem p)) := fun h => hn (hq.mpr h.2)
        simp only [if_neg hc]
        simp [locals_init, h9, hn]
    · have hc : ¬ (flag_set (mb_flags mem p) 9 = true ∧
          qemu_bytes mem (mb_boot_loader_name mem p)) := fun h => h9 h.1
      simp only [if_neg hc]
      simp [locals_init, h9]

theorem kernel_main_undetected (img : Image) (p : Nat) (mem : Mem)
    (hdet : (detect_tm mem p).have_tm = false) :
    kernel_main img MB_MAGIC p mem = { mem := mem, trace := [] } := by
  unfold kernel_main
  simp [hdet]

/-- Stores `2k` and `2k + 1` of the cell loop are the cell of `msg[k]`. -/
theorem cell_stores_getElem (msg : List Nat) (ss n k : Nat) (hk : k < n) :
    (cell_stores msg ss n)[2 * k]? = some (ptr_add ss (2 * k), msg.getD k 0) ∧
    (cell_stores msg ss n)[2 * k + 1]? = some (ptr_add ss (2 * k + 1), 0x40) := by
  induction n with
  | zero => omega
  | succ n ih =>
    have hlen := cell_stores_length msg ss n
    simp only [cell_stores]
    by_cases hkn : k < n
    · obtain ⟨h1, h2⟩ := ih hkn
      rw [List.getElem?_append_left (by omega), List.getElem?_append_left (by omega)]
      exact ⟨h1, h2⟩
    · have e : k = n := by omega
      subst e
      rw [List.getElem?_append_right (by omega), List.getElem?_append_right (by omega), hlen]
      have e0 : 2 * k - 2 * k = 0 := by omega
      have e1 : 2 * k + 1 - 2 * k = 1 := by omega
      rw [e0, e1]
      exact ⟨rfl, rfl⟩

/-- Entries 0..33 of `render_stores` are the cells of `msg1` from `tm`. -/
theorem render_stores_row0 (tm tm_pitch i : Nat) (hi : i < 17) :
    (render_stores tm tm_pitch)[2 * i]? = some (ptr_add tm (2 * i), msg1.getD i 0) ∧
    (render_stores tm tm_pitch)[2 * i + 1]? = some (ptr_add tm (2 * i + 1), 0x40) := by
  have hlen := cell_stores_length msg1 tm 17
  unfold render_stores
  rw [List.getElem?_append_left (by omega), List.getElem?_append_left (by omega)]
  exact cell_stores_getElem msg1 tm 17 i hi

/-- Entries 34..47 of `render_stores` are the cells of `msg2` from `tm + tm_pitch`. -/
theorem render_stores_row1 (tm tm_pitch j : Nat) (hj : j < 7) :
    (render_stores tm tm_pitch)[34 + 2 * j]? =
      some (ptr_add tm (tm_pitch + 2 * j), msg2.getD j 0) ∧
    (render_stores tm tm_pitch)[34 + 2 * j + 1]? =
      some (ptr_add tm (tm_pitch + 2 * j + 1), 0x40) := by
  have hlen := cell_stores_length msg1 tm 17
  unfold render_stores
  rw [List.getElem?_append_right (by omega), List.getElem?_append_right (by omega), hlen]
  have e0 : 34 + 2 * j - 2 * 17 = 2 * j := by omega
  have e1 : 34 + 2 * j + 1 - 2 * 17 = 2 * j + 1 := by omega
  rw [e0, e1]
  have h := cell_stores_getElem msg2 (ptr_add tm tm_pitch) 7 j hj
  rw [ptr_add_ptr_add, ptr_add_ptr_add] at h
  rw [Nat.add_assoc]
  exact h

/-- Store `2k + 1` of the cell loop is the attribute byte of cell `k`,
whatever the memory holds. -/
theorem cell_trace_attr (msg ss : Nat) (mem : Mem) (n k : Nat) (hk : k < n) :
    (cell_trace msg ss mem n)[2 * k + 1]? = some (ptr_add ss (2 * k + 1), 0x40) := by
  induction n with
  | zero => omega
  | succ n ih =>
    have hlen := cell_trace_length msg ss mem n
    simp only [cell_trace]
    by_cases hkn : k < n
    · rw [List.getElem?_append_left (by omega)]
      exact ih hkn
    · have e : k = n := by omega
      subst e
      rw [List.getElem?_append_right (by omega), hlen]
      have e1 : 2 * k + 1 - 2 * k = 1 := by omega
      rw [e1]
      rfl

/-- Stores `2i` and `2i + 1` of `render`, `i < 17`: the character store goes
to `tm + 2i` and the attribute store is `(tm + 2i + 1, 0x40)`. -/
theorem render_trace_row0 (img : Image) (tm tm_pitch : Nat) (mem : Mem) (i : Nat)
    (hi : i < 17) :
    ((render_trace img tm tm_pitch mem)[2 * i]?).map Prod.fst = some (ptr_add tm (2 * i)) ∧
    (render_trace img tm tm_pitch mem)[2 * i + 1]? = some (ptr_add tm (2 * i + 1), 0x40) := by
  constructor
  · rw [render_trace_addr, (render_stores_row0 tm tm_pitch i hi).1]
    rfl
  · have hlen := cell_trace_length img.msg1_addr tm mem 17
    unfold render_trace
    rw [List.getElem?_append_left (by omega)]
    exact cell_trace_attr _ _ _ 17 i hi

/-- Stores `34 + 2j` and `34 + 2j + 1` of `render`, `j < 7`: the character
store goes to `tm + tm_pitch + 2j` and the attribute store is
`(tm + tm_pitch + 2j + 1, 0x40)`. -/
theorem render_trace_row1 (img : Image) (tm tm_pitch : Nat) (mem : Mem) (j : Nat)
    (hj : j < 7) :
    ((render_trace img tm tm_pitch mem)[34 + 2 * j]?).map Prod.fst =
      some (ptr_add tm (tm_pitch + 2 * j)) ∧
    (render_trace img tm tm_pitch mem)[34 + 2 * j + 1]? =
      some (ptr_add tm (tm_pitch + 2 * j + 1), 0x40) := by
  constructor
  · rw [render_trace_addr, (render_stores_row1 tm tm_pitch j hj).1]
    rfl
  · have hlen := cell_trace_length img.msg1_addr tm mem 17
    unfold render_trace
    rw [List.getElem?_append_right (by omega), hlen]
    have e1 : 34 + 2 * j + 1 - 2 * 17 = 2 * j + 1 := by omega
    rw [e1, cell_trace_attr _ _ _ 7 j hj, ptr_add_ptr_add, Nat.add_assoc]

/-! ## The memory after rendering -/

/-- Message 2 is stored last: its cells are always in place after the stores
of `render_stores`. -/
theorem render_mem_row1 (A P : Nat) (m : Mem) :
    round_trip_row1 (apply_stores (render_stores A P) m) A P := by
  intro j hj
  unfold render_stores
  rw [apply_stores_append]
  have h := apply_cell_stores_get msg2 (ptr_add A P) 7
    (apply_stores (cell_stores msg1 A 17) m) (by unfold PTR_MOD; omega) j hj
  rw [ptr_add_ptr_add, ptr_add_ptr_add] at h
  rw [Nat.add_assoc]
  exact h

/-- Cell `i` of message 1 survives the stores of `render_stores` when it ends
before row 1 starts. -/
theorem render_mem_row0_cell (A P : Nat) (m : Mem) (i : Nat) (hi : i < 17)
    (hP : P < 65536) (h : 2 * i + 1 < P) :
    apply_stores (render_stores A P) m (ptr_add A (2 * i)) = msg1.getD i 0 ∧
    apply_stores (render_stores A P) m (ptr_add A (2 * i + 1)) = 0x40 := by
  unfold render_stores
  rw [apply_stores_append]
  have h0 := apply_cell_stores_get msg1 A 17 m (by unfold PTR_MOD; omega) i hi
  have f0 := apply_cell_stores_frame msg2 (ptr_add A P) 7
    (apply_stores (cell_stores msg1 A 17) m) (ptr_add A (2 * i)) (by
      intro j hj
      rw [ptr_add_ptr_add, Ne,
        ptr_add_inj (by unfold PTR_MOD; omega) (by unfold PTR_MOD; omega)]
      omega)
  have f1 := apply_cell_stores_frame msg2 (ptr_add A P) 7
    (apply_stores (cell_stores msg1 A 17) m) (ptr_add A (2 * i + 1)) (by
      intro j hj
      rw [ptr_add_ptr_add, Ne,
        ptr_add_inj (by unfold PTR_MOD; omega) (by unfold PTR_MOD; omega)]
      omega)
  rw [f0, f1]
  exact h0

/-- Rows 0 and 1 do not share an address when the 16-bit pitch is at least 34. -/
theorem rows_disjoint (A P : Nat) (hP : P < 65536) (h : 34 ≤ P) (x y : Nat)
    (hx : x < 34) (hy : y < 14) : ptr_add A x ≠ ptr_add A (P + y) := by
  rw [Ne, ptr_add_inj (by unfold PTR_MOD; omega) (by unfold PTR_MOD; omega)]
  omega

theorem msg1_inner_ne_W (k : Nat) (h1 : 1 ≤ k) (h2 : k ≤ 15) : msg1.getD k 0 ≠ 87 := by
  interval_cases k <;> decide

/-- After the stores of `render_stores` with a 16-bit pitch the round trip
holds exactly when the pitch is 32 or at least 34. -/
theorem round_trip_render_iff (A P : Nat) (m : Mem) (hP : P < 65536) :
    round_trip (apply_stores (render_stores A P) m) A P ↔ (P = 32 ∨ 34 ≤ P) := by
  constructor
  · rintro ⟨H, R⟩
    by_contra hc
    have hlt : P < 32 ∨ P = 33 := by omega
    by_cases hodd : P % 2 = 1
    · have h1 := (H (P / 2) (by omega)).2
      have h2 := (R 0 (by omega)).1
      have e : 2 * (P / 2) + 1 = P + 2 * 0 := by omega
      rw [e, h2] at h1
      exact absurd h1 (by decide)
    · by_cases h0 : P = 0
      · subst h0
        have h1 := (H 1 (by omega)).1
        have h2 := (R 1 (by omega)).1
        have e : 2 * 1 = 0 + 2 * 1 := by omega
        rw [e, h2] at h1
        exact absurd h1 (by decide)
      · have h1 := (H (P / 2) (by omega)).1
        have h2 := (R 0 (by omega)).1
        have e : 2 * (P / 2) = P + 2 * 0 := by omega
        rw [e, h2] at h1
        exact msg1_inner_ne_W (P / 2) (by omega) (by omega) h1.symm
  · intro h
    refine ⟨?_, render_mem_row1 A P m⟩
    intro i hi
    by_cases hc : 2 * i + 1 < P
    · exact render_mem_row0_cell A P m i hi hP hc
    · have hP32 : P = 32 := by omega
      have hi16 : i = 16 := by omega
      subst hP32
      subst hi16
      have h2 := render_mem_row1 A 32 m 0 (by omega)
      exact h2

/-! ## Two runs -/

/-- The stores of a call are determined by the magic and the detected locals. -/
theorem kernel_main_trace_cases (img : Image) (mb_magic : Int) (p : Nat) (mem : Mem) :
    (kernel_main img mb_magic p mem).trace =
      if mb_magic = MB_MAGIC ∧ (detect_tm mem p).have_tm = true then
        render_trace img (detect_tm mem p).tm (detect_tm mem p).tm_pitch mem
      else [] := by
  by_cases hm : mb_magic = MB_MAGIC
  · by_cases hd : (detect_tm mem p).have_tm = true
    · rw [if_pos ⟨hm, hd⟩, kernel_main_detected img mb_magic p mem hm hd]
    · rw [if_neg (fun h => hd h.2)]
      unfold kernel_main
      simp [hm, hd]
  · rw [if_neg (fun h => hm h.1)]
    unfold kernel_main
    simp [hm]

/-- Detection reads only the gated fields and, on the second path, the five
bytes of the loader name. -/
theorem detect_tm_congr (m1 m2 : Mem) (p : Nat) (hg : same_gated_fields m1 m2 p)
    (hb : flag_set (mb_flags m1 p) 9 = true → ¬ text_framebuffer m1 p →
      ∀ k, k < 5 → load8 m1 (mb_boot_loader_name m1 p + k)
        = load8 m2 (mb_boot_loader_name m1 p + k)) :
    detect_tm m1 p = detect_tm m2 p := by
  obtain ⟨h9, h12, hfbf, hnm⟩ := hg
  rw [detect_tm_eq, detect_tm_eq]
  by_cases hfb1 : text_framebuffer m1 p
  · obtain ⟨ha, hp, ht⟩ := hfbf hfb1.1
    have hfb2 : text_framebuffer m2 p := ⟨by rw [← h12]; exact hfb1.1, by rw [← ht]; exact hfb1.2⟩
    simp only [if_pos hfb1, if_pos hfb2, ha, hp]
  · have hfb2 : ¬ text_framebuffer m2 p := by
      intro h
      have hb12 : flag_set (mb_flags m1 p) 12 = true := by rw [h12]; exact h.1
      exact hfb1 ⟨hb12, by rw [(hfbf hb12).2.2]; exact h.2⟩
    simp only [if_neg hfb1, if_neg hfb2]
    by_cases hb9 : flag_set (mb_flags m1 p) 9 = true
    · have hname := hnm hb9 hfb1
      have hbytes := hb hb9 hfb1
      have hqq : qemu_bytes m1 (mb_boot_loader_name m1 p) ↔
          qemu_bytes m2 (mb_boot_loader_name m2 p) := by
        rw [← hname]
        have b0 := hbytes 0 (by omega)
        have b1 := hbytes 1 (by omega)
        have b2 := hbytes 2 (by omega)
        have b3 := hbytes 3 (by omega)
        have b4 := hbytes 4 (by omega)
        rw [Nat.add_zero] at b0
        unfold qemu_bytes
        rw [b0, b1, b2, b3, b4]
      have hb9' : flag_set (mb_flags m2 p) 9 = true := by rw [← h9]; exact hb9
      by_cases hq : qemu_bytes m1 (mb_boot_loader_name m1 p)
      · simp only [if_pos (And.intro hb9 hq), if_pos (And.intro hb9' (hqq.mp hq))]
      · have hq2 : ¬ (flag_set (mb_flags m2 p) 9 = true ∧
            qemu_bytes m2 (mb_boot_loader_name m2 p)) := fun h => hq (hqq.mpr h.2)
        have hq1 : ¬ (flag_set (mb_flags m1 p) 9 = true ∧
            qemu_bytes m1 (mb_boot_loader_name m1 p)) := fun h => hq h.2
        simp only [if_neg hq1, if_neg hq2]
    · have hq1 : ¬ (flag_set (mb_flags m1 p) 9 = true ∧
          qemu_bytes m1 (mb_boot_loader_name m1 p)) := fun h => hb9 h.1
      have hq2 : ¬ (flag_set (mb_flags m2 p) 9 = true ∧
          qemu_bytes m2 (mb_boot_loader_name m2 p)) := fun h => hb9 (by rw [h9]; exact h.1)
      simp only [if_neg hq1, if_neg hq2]

/-- Scenario memories with the same name bytes agree outside the boot block. -/
theorem scenario_mem_outside (f a q t f' a' q' t' : Nat) (name : List Nat) :
    same_outside_block (scenario_mem f a q t name) (scenario_mem f' a' q' t' name) 0x10000 := by
  intro x hx
  have hlen : ∀ f a q t, (boot_block f 0x20000 a q t 0).length = 120 := by
    intro f a q t
    simp [boot_block, le32, le64]
  unfold scenario_mem mem_of
  by_cases h3 : 0x100000 ≤ x
  · simp only [if_pos h3]
  by_cases h2 : 0x20000 ≤ x
  · simp only [if_neg h3, if_pos h2]
  · simp only [if_neg h3, if_neg h2]
    by_cases h1 : 0x10000 ≤ x
    · have hge : 120 ≤ x - 0x10000 := by
        by_contra hc
        apply hx
        refine ⟨x - 0x10000, by unfold SIZEOF_multiboot_info; omega, ?_⟩
        unfold ptr_add PTR_MOD
        omega
      simp only [if_pos h1]
      rw [List.getD_eq_default _ _ (by rw [hlen]; exact hge),
        List.getD_eq_default _ _ (by rw [hlen]; exact hge)]
    · simp only [if_neg h1]

/-! ## The legacy text buffer -/

/-- Store `k` of the legacy rendering, `k < 34`, goes to 0xB8000 + k. -/
theorem legacy_row0_addresses :
    ∀ k, k < 34 → ((render_stores 0xB8000 160)[k]?).map Prod.fst = some (0xB8000 + k) := by
  decide

/-- Store `34 + k` of the legacy rendering, `k < 14`, goes to 0xB80A0 + k. -/
theorem legacy_row1_addresses :
    ∀ k, k < 14 → ((render_stores 0xB8000 160)[34 + k]?).map Prod.fst = some (0xB80A0 + k) := by
  decide

/-- Every store of the legacy rendering has its address in 0xB8000 .. 0xB8000 + 173. -/
theorem legacy_store_bounds :
    ∀ s ∈ render_stores 0xB8000 160, 0xB8000 ≤ s.1 ∧ s.1 < 0xB8000 + 174 := by
  decide

/-! ## kernel_main against its specification -/

/-- C1: for every magic value other than 0x2BADB002, every boot information
block and every initial memory, `kernel_main` performs no store and the
memory after the call is the memory before it. -/
theorem kernel_main_bad_magic (img : Image) (mb_magic : Int) (mb_info_ptr : Nat) (mem : Mem)
    (h : mb_magic ≠ 0x2BADB002) :
    kernel_main img mb_magic mb_info_ptr mem = { mem := mem, trace := [] } := by
  unfold kernel_main
  simp [MB_MAGIC, h]

/-- Witness of C1: magic 0xDEADBEEF, held in the `int` parameter as
-559038737, with a boot block that a valid magic would render from. -/
theorem kernel_main_bad_magic_witness :
    ((-559038737 : Int) ≠ 0x2BADB002) ∧
    kernel_main scenario_image (-559038737) 0x10000
        (scenario_mem 0x1200 0xB8000 160 2 [113, 101, 109, 117, 0]) =
      { mem := scenario_mem 0x1200 0xB8000 160 2 [113, 101, 109, 117, 0], trace := [] } :=
  ⟨by decide, kernel_main_bad_magic _ _ _ _ (by decide)⟩

/-- C2 (evaluation at the failing input): with flags bit 12 set,
`framebuffer_type` 2, `framebuffer_addr` 0x1000 and `framebuffer_pitch`
65536 + 200, `kernel_main` uses the pitch 200, not 65736: the first store of
message 2 (store number 34) goes to 0x1000 + 200, and the byte at
0x1000 + 65736 is left as it was. -/
theorem framebuffer_pitch_narrowed :
    text_framebuffer (scenario_mem 0x1000 0x1000 65736 2 []) 0x10000 ∧
    mb_framebuffer_addr (scenario_mem 0x1000 0x1000 65736 2 []) 0x10000 = 0x1000 ∧
    mb_framebuffer_pitch (scenario_mem 0x1000 0x1000 65736 2 []) 0x10000 = 65736 ∧
    detect_tm (scenario_mem 0x1000 0x1000 65736 2 []) 0x10000 =
      { have_tm := true, tm := 0x1000, tm_pitch := 200 } ∧
    (kernel_main scenario_image 0x2BADB002 0x10000
      (scenario_mem 0x1000 0x1000 65736 2 [])).trace.get? 34 = some (0x1000 + 200, 87) ∧
    (kernel_main scenario_image 0x2BADB002 0x10000
      (scenario_mem 0x1000 0x1000 65736 2 [])).mem (0x1000 + 200) = 87 ∧
    (kernel_main scenario_image 0x2BADB002 0x10000
      (scenario_mem 0x1000 0x1000 65736 2 [])).mem (0x1000 + 65736)
      = scenario_mem 0x1000 0x1000 65736 2 [] (0x1000 + 65736) := by
  decide

/-- C3: with magic 0x2BADB002, when flags bit 12 is unset or
`framebuffer_type` is not 2, flags bit 9 is set and the five bytes at
`boot_loader_name` are 'q','e','m','u',0, the display target `kernel_main`
uses is (0xB8000, 160): of the 48 stores, the cells of message 1 go to
0xB8000 on and the cells of message 2 to 0xB8000 + 160 on, each character
store followed by the store of 0x40; the characters stored are those of
`msg1` and `msg2` when the arrays hold their initialisers and lie clear of
the two rows. -/
theorem qemu_fallback_target (img : Image) (mb_info_ptr : Nat) (mem : Mem)
    (hfb : ¬ text_framebuffer mem mb_info_ptr)
    (h9 : flag_set (mb_flags mem mb_info_ptr) 9 = true)
    (hq : qemu_bytes mem (mb_boot_loader_name mem mb_info_ptr)) :
    detect_tm mem mb_info_ptr = { have_tm := true, tm := 0xB8000, tm_pitch := 160 } ∧
    (kernel_main img 0x2BADB002 mb_info_ptr mem).trace.length = 48 ∧
    (∀ i, i < 17 →
      ((kernel_main img 0x2BADB002 mb_info_ptr mem).trace[2 * i]?).map Prod.fst
        = some (0xB8000 + 2 * i) ∧
      (kernel_main img 0x2BADB002 mb_info_ptr mem).trace[2 * i + 1]?
        = some (0xB8000 + 2 * i + 1, 0x40)) ∧
    (∀ j, j < 7 →
      ((kernel_main img 0x2BADB002 mb_info_ptr mem).trace[34 + 2 * j]?).map Prod.fst
        = some (0xB8000 + 160 + 2 * j) ∧
      (kernel_main img 0x2BADB002 mb_info_ptr mem).trace[34 + 2 * j + 1]?
        = some (0xB8000 + 160 + 2 * j + 1, 0x40)) ∧
    (image_loaded img mem → msgs_clear_of_rows img 0xB8000 160 →
      (∀ i, i < 17 →
        (kernel_main img 0x2BADB002 mb_info_ptr mem).trace[2 * i]?
          = some (0xB8000 + 2 * i, msg1.getD i 0)) ∧
      (∀ j, j < 7 →
        (kernel_main img 0x2BADB002 mb_info_ptr mem).trace[34 + 2 * j]?
          = some (0xB8000 + 160 + 2 * j, msg2.getD j 0))) := by
  have hd : detect_tm mem mb_info_ptr = { have_tm := true, tm := 0xB8000, tm_pitch := 160 } := by
    rw [detect_tm_eq, if_neg hfb, if_pos ⟨h9, hq⟩]
  have hdet : (detect_tm mem mb_info_ptr).have_tm = true := by rw [hd]
  have ht := kernel_main_trace img mb_info_ptr mem hdet
  have hc := kernel_main_trace_clear img mb_info_ptr mem hdet
  rw [hd] at ht hc
  simp only [] at ht hc
  have a0 : ∀ k, k < 48 → ptr_add 0xB8000 k = 0xB8000 + k := fun k hk =>
    ptr_add_eq_add (by unfold PTR_MOD; omega)
  have a1 : ∀ k, k < 48 → ptr_add 0xB8000 (160 + k) = 0xB8000 + 160 + k := fun k hk => by
    rw [ptr_add_eq_add (by unfold PTR_MOD; omega)]; omega
  refine ⟨hd, ?_, ?_, ?_, ?_⟩
  · rw [ht]; exact render_trace_length _ _ _ _
  · intro i hi
    have h := render_trace_row0 img 0xB8000 160 mem i hi
    rw [a0 _ (by omega), a0 _ (by omega)] at h
    rw [ht]
    exact h
  · intro j hj
    have h := render_trace_row1 img 0xB8000 160 mem j hj
    rw [a1 _ (by omega), Nat.add_assoc 160, a1 _ (by omega)] at h
    rw [ht]
    exact h
  · intro himg hclear
    rw [hc himg hclear]
    constructor
    · intro i hi
      have h := (render_stores_row0 0xB8000 160 i hi).1
      rw [a0 _ (by omega)] at h
      exact h
    · intro j hj
      have h := (render_stores_row1 0xB8000 160 j hj).1
      rw [a1 _ (by omega)] at h
      exact h

/-- Witness of C3: flags = 0x200 (bit 9 only) and the name "qemu", with the
arrays at 1 MiB. -/
theorem qemu_fallback_target_witness :
    detect_tm (scenario_mem 0x200 0 0 0 [113, 101, 109, 117, 0]) 0x10000
      = { have_tm := true, tm := 0xB8000, tm_pitch := 160 } ∧
    image_loaded scenario_image (scenario_mem 0x200 0 0 0 [113, 101, 109, 117, 0]) ∧
    msgs_clear_of_rows scenario_image 0xB8000 160 ∧
    (kernel_main scenario_image 0x2BADB002 0x10000
      (scenario_mem 0x200 0 0 0 [113, 101, 109, 117, 0])).trace[34 + 2 * 0]?
        = some (0xB8000 + 160 + 2 * 0, msg2.getD 0 0) :=
  have h := qemu_fallback_target scenario_image 0x10000
    (scenario_mem 0x200 0 0 0 [113, 101, 109, 117, 0]) (by decide) (by decide) (by decide)
  have himg : image_loaded scenario_image (scenario_mem 0x200 0 0 0 [113, 101, 109, 117, 0]) := by
    unfold image_loaded; decide
  have hclear : msgs_clear_of_rows scenario_image 0xB8000 160 := by
    unfold msgs_clear_of_rows in_rows; decide
  ⟨h.1, himg, hclear, (h.2.2.2.2 himg hclear).2 0 (by decide)⟩

/-- C4: with magic 0x2BADB002, when neither detection path applies (flags
bit 12 unset or `framebuffer_type` not 2, and flags bit 9 unset or one of the
five bytes at `boot_loader_name` different from 'q','e','m','u',0),
`kernel_main` performs no store and memory is unchanged. -/
theorem no_display_no_store (img : Image) (mb_info_ptr : Nat) (mem : Mem)
    (hfb : ¬ text_framebuffer mem mb_info_ptr)
    (hq : ¬ (flag_set (mb_flags mem mb_info_ptr) 9 = true ∧
      qemu_bytes mem (mb_boot_loader_name mem mb_info_ptr))) :
    kernel_main img 0x2BADB002 mb_info_ptr mem = { mem := mem, trace := [] } := by
  apply kernel_main_undetected
  rw [detect_tm_eq, if_neg hfb, if_neg hq]
  rfl

/-- Witness of C4: bit 9 set with the name "qemu!" (a non-zero fifth byte),
and bit 9 set with the name "lilo". -/
theorem no_display_no_store_witness :
    kernel_main scenario_image 0x2BADB002 0x10000
        (scenario_mem 0x200 0 0 0 [113, 101, 109, 117, 33, 0]) =
      { mem := scenario_mem 0x200 0 0 0 [113, 101, 109, 117, 33, 0], trace := [] } ∧
    kernel_main scenario_image 0x2BADB002 0x10000
        (scenario_mem 0x200 0 0 0 [108, 105, 108, 111, 0]) =
      { mem := scenario_mem 0x200 0 0 0 [108, 105, 108, 111, 0], trace := [] } :=
  ⟨no_display_no_store _ _ _ (by decide) (by decide),
   no_display_no_store _ _ _ (by decide) (by decide)⟩

/-- C5 (counterexample): two runs that detect a display target and break
the round trip. With `framebuffer_addr` 0x1000 and `framebuffer_pitch` 0 the
target (0x1000, 0) is detected and the byte at A + 2 after the call is 'O'
(79), the second character of message 2, not msg1[1] = 'E' (69). With
`framebuffer_addr` = &msg1 (0x100000) and `framebuffer_pitch` 64 the target
(0x100000, 64) is detected and the byte at A + 2 is 0x40: the store to A + 1
overwrote msg1[1] before it was loaded. -/
theorem round_trip_fails_pitch_zero :
    image_loaded scenario_image (scenario_mem 0x1000 0x1000 0 2 []) ∧
    detect_tm (scenario_mem 0x1000 0x1000 0 2 []) 0x10000 =
      { have_tm := true, tm := 0x1000, tm_pitch := 0 } ∧
    (kernel_main scenario_image 0x2BADB002 0x10000
      (scenario_mem 0x1000 0x1000 0 2 [])).mem (0x1000 + 2 * 1) = 79 ∧
    (kernel_main scenario_image 0x2BADB002 0x10000
      (scenario_mem 0x1000 0x1000 0 2 [])).mem (0x1000 + 2 * 1) ≠ msg1.getD 1 0 ∧
    image_loaded scenario_image (scenario_mem 0x1000 0x100000 64 2 []) ∧
    detect_tm (scenario_mem 0x1000 0x100000 64 2 []) 0x10000 =
      { have_tm := true, tm := 0x100000, tm_pitch := 64 } ∧
    (kernel_main scenario_image 0x2BADB002 0x10000
      (scenario_mem 0x1000 0x100000 64 2 [])).mem (0x100000 + 2 * 1) = 0x40 ∧
    (kernel_main scenario_image 0x2BADB002 0x10000
      (scenario_mem 0x1000 0x100000 64 2 [])).mem (0x100000 + 2 * 1) ≠ msg1.getD 1 0 := by
  unfold image_loaded
  decide

/-- C5 (amended): for every run of `kernel_main` with magic 0x2BADB002 in
which a display target (A, P) is detected, P being the 16-bit row pitch
used, the arrays hold their initialisers at entry and none of the bytes
loaded from them lies in the two rows, the round trip (msg1[i] at A + 2i and
0x40 at A + 2i + 1 for i < 17, msg2[j] at A + P + 2j and 0x40 at
A + P + 2j + 1 for j < 7, in the memory after the call) holds if and only
if P = 32 or P ≥ 34. -/
theorem round_trip_iff_pitch (img : Image) (mb_info_ptr : Nat) (mem : Mem)
    (hdet : (detect_tm mem mb_info_ptr).have_tm = true)
    (himg : image_loaded img mem)
    (hclear : msgs_clear_of_rows img (detect_tm mem mb_info_ptr).tm
      (detect_tm mem mb_info_ptr).tm_pitch) :
    round_trip (kernel_main img 0x2BADB002 mb_info_ptr mem).mem
        (detect_tm mem mb_info_ptr).tm (detect_tm mem mb_info_ptr).tm_pitch ↔
      ((detect_tm mem mb_info_ptr).tm_pitch = 32 ∨ 34 ≤ (detect_tm mem mb_info_ptr).tm_pitch) := by
  rw [kernel_main_mem img mb_info_ptr mem hdet himg hclear]
  exact round_trip_render_iff (detect_tm mem mb_info_ptr).tm
    (detect_tm mem mb_info_ptr).tm_pitch mem (detect_tm_bounds mem mb_info_ptr).2

/-- Witness of C5 (amended): the legacy target (0xB8000, 160), pitch ≥ 34,
with the arrays at 1 MiB. -/
theorem round_trip_iff_pitch_witness :
    (detect_tm (scenario_mem 0x200 0 0 0 [113, 101, 109, 117, 0]) 0x10000).have_tm = true ∧
    image_loaded scenario_image (scenario_mem 0x200 0 0 0 [113, 101, 109, 117, 0]) ∧
    round_trip
      (kernel_main scenario_image 0x2BADB002 0x10000
        (scenario_mem 0x200 0 0 0 [113, 101, 109, 117, 0])).mem
      (detect_tm (scenario_mem 0x200 0 0 0 [113, 101, 109, 117, 0]) 0x10000).tm
      (detect_tm (scenario_mem 0x200 0 0 0 [113, 101, 109, 117, 0]) 0x10000).tm_pitch :=
  have himg : image_loaded scenario_image (scenario_mem 0x200 0 0 0 [113, 101, 109, 117, 0]) := by
    unfold image_loaded; decide
  ⟨by decide, himg,
    (round_trip_iff_pitch scenario_image 0x10000 _ (by decide) himg
      (by unfold msgs_clear_of_rows in_rows; decide)).mpr (by decide)⟩

/-- C6 (Scenario 1): with magic 0x2BADB002, flags bit 12 set,
`framebuffer_type` 2, `framebuffer_addr` 0x1000 and `framebuffer_pitch` 200,
for a kernel image whose arrays hold their initialisers and lie clear of the
rows at 0x1000 and 0x1000 + 200, after the call msg1[i] is at 0x1000 + 2i
and 0x40 at 0x1000 + 2i + 1 for every i < 17, and msg2[j] is at
0x1000 + 200 + 2j and 0x40 at 0x1000 + 200 + 2j + 1 for every j < 7. -/
theorem scenario1_framebuffer (img : Image) (mb_info_ptr : Nat) (mem : Mem)
    (hfb : text_framebuffer mem mb_info_ptr)
    (haddr : mb_framebuffer_addr mem mb_info_ptr = 0x1000)
    (hpitch : mb_framebuffer_pitch mem mb_info_ptr = 200)
    (himg : image_loaded img mem)
    (hclear : msgs_clear_of_rows img 0x1000 200) :
    (∀ i, i < 17 →
      (kernel_main img 0x2BADB002 mb_info_ptr mem).mem (0x1000 + 2 * i) = msg1.getD i 0 ∧
      (kernel_main img 0x2BADB002 mb_info_ptr mem).mem (0x1000 + 2 * i + 1) = 0x40) ∧
    (∀ j, j < 7 →
      (kernel_main img 0x2BADB002 mb_info_ptr mem).mem (0x1000 + 200 + 2 * j) = msg2.getD j 0 ∧
      (kernel_main img 0x2BADB002 mb_info_ptr mem).mem (0x1000 + 200 + 2 * j + 1) = 0x40) := by
  have hd : detect_tm mem mb_info_ptr = { have_tm := true, tm := 0x1000, tm_pitch := 200 } := by
    rw [detect_tm_eq, if_pos hfb, haddr, hpitch]
  have hdet : (detect_tm mem mb_info_ptr).have_tm = true := by rw [hd]
  have hk := kernel_main_mem img mb_info_ptr mem hdet himg (by rw [hd]; exact hclear)
  rw [hd] at hk
  simp only [] at hk
  rw [hk]
  have hrt := (round_trip_render_iff 0x1000 200 mem (by omega)).mpr (Or.inr (by omega))
  constructor
  · intro i hi
    have h := hrt.1 i hi
    rw [ptr_add_eq_add (by unfold PTR_MOD; omega),
      ptr_add_eq_add (by unfold PTR_MOD; omega)] at h
    exact h
  · intro j hj
    have h := hrt.2 j hj
    rw [ptr_add_eq_add (by unfold PTR_MOD; omega),
      ptr_add_eq_add (by unfold PTR_MOD; omega)] at h
    have e0 : 0x1000 + (200 + 2 * j) = 0x1000 + 200 + 2 * j := by omega
    have e1 : 0x1000 + (200 + 2 * j + 1) = 0x1000 + 200 + 2 * j + 1 := by omega
    rw [e0, e1] at h
    exact h

/-- Witness of C6: a boot block with flags = 0x1000 and every other byte 0
apart from the framebuffer members, the arrays at 1 MiB; shown for the last
cell of each row. -/
theorem scenario1_framebuffer_witness :
    text_framebuffer (scenario_mem 0x1000 0x1000 200 2 []) 0x10000 ∧
    image_loaded scenario_image (scenario_mem 0x1000 0x1000 200 2 []) ∧
    msgs_clear_of_rows scenario_image 0x1000 200 ∧
    (kernel_main scenario_image 0x2BADB002 0x10000
      (scenario_mem 0x1000 0x1000 200 2 [])).mem (0x1000 + 2 * 16) = 87 ∧
    (kernel_main scenario_image 0x2BADB002 0x10000
      (scenario_mem 0x1000 0x1000 200 2 [])).mem (0x1000 + 200 + 2 * 6) = 33 :=
  have himg : image_loaded scenario_image (scenario_mem 0x1000 0x1000 200 2 []) := by
    unfold image_loaded; decide
  have hclear : msgs_clear_of_rows scenario_image 0x1000 200 := by
    unfold msgs_clear_of_rows in_rows; decide
  have h := scenario1_framebuffer scenario_image 0x10000 (scenario_mem 0x1000 0x1000 200 2 [])
    (by decide) (by decide) (by decide) himg hclear
  ⟨by decide, himg, hclear, (h.1 16 (by decide)).1, (h.2 6 (by decide)).1⟩

/-- C7 (counterexample): two boot blocks at 0x10000 with flags = 0x200 and
`boot_loader_name` = 0x10004, which points into the block itself (at the
members `mem_lower`, `mem_upper`); these hold "qemu" in one run and "lilo"
in the other. The memories agree outside the block and the blocks agree on
every gated field, yet one run stores 48 bytes and the other none. -/
theorem store_sequence_aliasing :
    same_outside_block (alias_mem [113, 101, 109, 117, 0]) (alias_mem [108, 105, 108, 111, 0])
      0x10000 ∧
    same_gated_fields (alias_mem [113, 101, 109, 117, 0]) (alias_mem [108, 105, 108, 111, 0])
      0x10000 ∧
    image_loaded scenario_image (alias_mem [113, 101, 109, 117, 0]) ∧
    image_loaded scenario_image (alias_mem [108, 105, 108, 111, 0]) ∧
    (kernel_main scenario_image 0x2BADB002 0x10000
      (alias_mem [113, 101, 109, 117, 0])).trace.length = 48 ∧
    (kernel_main scenario_image 0x2BADB002 0x10000
      (alias_mem [108, 105, 108, 111, 0])).trace = [] ∧
    (kernel_main scenario_image 0x2BADB002 0x10000 (alias_mem [113, 101, 109, 117, 0])).trace ≠
      (kernel_main scenario_image 0x2BADB002 0x10000 (alias_mem [108, 105, 108, 111, 0])).trace := by
  refine ⟨?_, ?_, by unfold image_loaded; decide, by unfold image_loaded; decide,
    by decide, by decide, by decide⟩
  · intro a ha
    unfold alias_mem
    by_cases hin : 0x10004 ≤ a ∧ a < 0x10009
    · exfalso
      apply ha
      refine ⟨a - 0x10000, by unfold SIZEOF_multiboot_info; omega, ?_⟩
      unfold ptr_add PTR_MOD
      omega
    · simp only [if_neg hin]
  · unfold same_gated_fields
    decide

/-- C7 (amended): for any two calls of `kernel_main` with the same magic and
boot block address, in both of which the arrays hold their initialisers at
entry, whose initial memories agree outside the boot block and whose boot
blocks agree on flags bits 9 and 12, on `framebuffer_addr`,
`framebuffer_pitch` and `framebuffer_type` when bit 12 is set, and on
`boot_loader_name` when bit 9 is set and no text-mode framebuffer is
accepted, and in which, in that last case, the five bytes at
`boot_loader_name` lie outside the boot block, the sequences of stores are
identical. -/
theorem store_sequence_noninterference (img : Image) (mb_magic : Int) (mb_info_ptr : Nat)
    (m1 m2 : Mem)
    (himg1 : image_loaded img m1) (himg2 : image_loaded img m2)
    (hout : same_outside_block m1 m2 mb_info_ptr)
    (hg : same_gated_fields m1 m2 mb_info_ptr)
    (hname : flag_set (mb_flags m1 mb_info_ptr) 9 = true → ¬ text_framebuffer m1 mb_info_ptr →
      ∀ k, k < 5 → ¬ in_boot_block mb_info_ptr (mb_boot_loader_name m1 mb_info_ptr + k)) :
    (kernel_main img mb_magic mb_info_ptr m1).trace =
      (kernel_main img mb_magic mb_info_ptr m2).trace := by
  have hd : detect_tm m1 mb_info_ptr = detect_tm m2 mb_info_ptr := by
    apply detect_tm_congr m1 m2 mb_info_ptr hg
    intro h9 hfb k hk
    unfold load8
    rw [hout _ (hname h9 hfb k hk)]
  have h17 : ∀ i, i < 17 → i < sizeof_msg1 := fun i hi => by
    unfold sizeof_msg1; simp [msg1]; omega
  have h7 : ∀ j, j < 7 → j < sizeof_msg2 := fun j hj => by
    unfold sizeof_msg2; simp [msg2]; omega
  have ht := render_trace_congr img (detect_tm m2 mb_info_ptr).tm
    (detect_tm m2 mb_info_ptr).tm_pitch m1 m2
    (fun i hi => by rw [himg1.1 i (h17 i hi), himg2.1 i (h17 i hi)])
    (fun j hj => by rw [himg1.2 j (h7 j hj), himg2.2 j (h7 j hj)])
  rw [kernel_main_trace_cases, kernel_main_trace_cases, hd, ht]

/-- Witness of C7 (amended): two boot blocks with bit 9 set and bit 12
unset that differ in the other flag bits and in all three framebuffer
members; the name "qemu" lies at 0x20000, outside the block. -/
theorem store_sequence_noninterference_witness :
    (kernel_main scenario_image 0x2BADB002 0x10000
      (scenario_mem 0x200 0 0 0 [113, 101, 109, 117, 0])).trace =
    (kernel_main scenario_image 0x2BADB002 0x10000
      (scenario_mem 0x2FF 0x5000 77 2 [113, 101, 109, 117, 0])).trace :=
  store_sequence_noninterference scenario_image 0x2BADB002 0x10000 _ _
    (by unfold image_loaded; decide) (by unfold image_loaded; decide)
    (scenario_mem_outside _ _ _ _ _ _ _ _ _)
    (by unfold same_gated_fields; decide)
    (by
      intro _ _ k hk
      have e : mb_boot_loader_name (scenario_mem 0x200 0 0 0 [113, 101, 109, 117, 0]) 0x10000
          = 0x20000 := by decide
      rw [e]
      rintro ⟨j, hj, hx⟩
      unfold SIZEOF_multiboot_info at hj
      unfold ptr_add PTR_MOD at hx
      omega)

/-- C8 (counterexample): with `framebuffer_addr` = &msg1 (0x100000) and
`framebuffer_pitch` 200 the target (0x100000, 200) is detected, and store 2
is (A + 2 := 0x40), not (A + 2 := msg1[1]) = (A + 2 := 69): store 1 put the
attribute byte over msg1[1] before iteration 1 loaded it. -/
theorem store_sequence_overlap :
    image_loaded scenario_image (scenario_mem 0x1000 0x100000 200 2 []) ∧
    detect_tm (scenario_mem 0x1000 0x100000 200 2 []) 0x10000 =
      { have_tm := true, tm := 0x100000, tm_pitch := 200 } ∧
    (kernel_main scenario_image 0x2BADB002 0x10000
      (scenario_mem 0x1000 0x100000 200 2 [])).trace[2 * 1]? = some (0x100000 + 2 * 1, 0x40) ∧
    (kernel_main scenario_image 0x2BADB002 0x10000
      (scenario_mem 0x1000 0x100000 200 2 [])).trace[2 * 1]?
      ≠ some (0x100000 + 2 * 1, msg1.getD 1 0) := by
  unfold image_loaded
  decide

/-- C8 (amended): for every run of `kernel_main` with magic 0x2BADB002 in
which a display target with base A and used row pitch P is detected, the
ordered sequence of stores has exactly 48 elements: stores 2i and 2i + 1 go
to A + 2i and A + 2i + 1 for i = 0..16, stores 34 + 2j and 34 + 2j + 1 go to
A + P + 2j and A + P + 2j + 1 for j = 0..6 (addresses in 64-bit pointer
arithmetic), every odd store carries 0x40, whether or not later stores
overwrite earlier ones, and the memory after the call is the initial memory
with these stores applied in order. When the arrays hold their initialisers
at entry and none of the bytes loaded from them lies in the two rows, store
2i carries msg1[i] and store 34 + 2j carries msg2[j]. -/
theorem store_sequence_exact (img : Image) (mb_info_ptr : Nat) (mem : Mem)
    (hdet : (detect_tm mem mb_info_ptr).have_tm = true) :
    (kernel_main img 0x2BADB002 mb_info_ptr mem).trace.length = 48 ∧
    (∀ i, i < 17 →
      ((kernel_main img 0x2BADB002 mb_info_ptr mem).trace[2 * i]?).map Prod.fst =
        some (ptr_add (detect_tm mem mb_info_ptr).tm (2 * i)) ∧
      (kernel_main img 0x2BADB002 mb_info_ptr mem).trace[2 * i + 1]? =
        some (ptr_add (detect_tm mem mb_info_ptr).tm (2 * i + 1), 0x40)) ∧
    (∀ j, j < 7 →
      ((kernel_main img 0x2BADB002 mb_info_ptr mem).trace[34 + 2 * j]?).map Prod.fst =
        some (ptr_add (detect_tm mem mb_info_ptr).tm
          ((detect_tm mem mb_info_ptr).tm_pitch + 2 * j)) ∧
      (kernel_main img 0x2BADB002 mb_info_ptr mem).trace[34 + 2 * j + 1]? =
        some (ptr_add (detect_tm mem mb_info_ptr).tm
          ((detect_tm mem mb_info_ptr).tm_pitch + 2 * j + 1), 0x40)) ∧
    (kernel_main img 0x2BADB002 mb_info_ptr mem).mem =
      apply_stores (kernel_main img 0x2BADB002 mb_info_ptr mem).trace mem ∧
    (image_loaded img mem →
      msgs_clear_of_rows img (detect_tm mem mb_info_ptr).tm
        (detect_tm mem mb_info_ptr).tm_pitch →
      (∀ i, i < 17 →
        (kernel_main img 0x2BADB002 mb_info_ptr mem).trace[2 * i]? =
          some (ptr_add (detect_tm mem mb_info_ptr).tm (2 * i), msg1.getD i 0)) ∧
      (∀ j, j < 7 →
        (kernel_main img 0x2BADB002 mb_info_ptr mem).trace[34 + 2 * j]? =
          some (ptr_add (detect_tm mem mb_info_ptr).tm
            ((detect_tm mem mb_info_ptr).tm_pitch + 2 * j), msg2.getD j 0))) := by
  refine ⟨?_, ?_, ?_, kernel_main_mem_trace img mb_info_ptr mem hdet, ?_⟩
  · rw [kernel_main_trace img mb_info_ptr mem hdet]
    exact render_trace_length _ _ _ _
  · intro i hi
    rw [kernel_main_trace img mb_info_ptr mem hdet]
    exact render_trace_row0 img _ _ mem i hi
  · intro j hj
    rw [kernel_main_trace img mb_info_ptr mem hdet]
    exact render_trace_row1 img _ _ mem j hj
  · intro himg hclear
    rw [kernel_main_trace_clear img mb_info_ptr mem hdet himg hclear]
    exact ⟨fun i hi => (render_stores_row0 _ _ i hi).1,
      fun j hj => (render_stores_row1 _ _ j hj).1⟩

/-- Witness of C8 (amended): the target (0x1000, 0), where message 2
overwrites the first cells of message 1: store 0 and store 34 both go to
0x1000 and both carry 'W'. -/
theorem store_sequence_exact_witness :
    (detect_tm (scenario_mem 0x1000 0x1000 0 2 []) 0x10000).have_tm = true ∧
    (kernel_main scenario_image 0x2BADB002 0x10000
      (scenario_mem 0x1000 0x1000 0 2 [])).trace.length = 48 ∧
    (kernel_main scenario_image 0x2BADB002 0x10000
      (scenario_mem 0x1000 0x1000 0 2 [])).trace[2 * 0]? =
      some (ptr_add (detect_tm (scenario_mem 0x1000 0x1000 0 2 []) 0x10000).tm (2 * 0),
        msg1.getD 0 0) ∧
    (kernel_main scenario_image 0x2BADB002 0x10000
      (scenario_mem 0x1000 0x1000 0 2 [])).trace[34 + 2 * 0]? =
      some (ptr_add (detect_tm (scenario_mem 0x1000 0x1000 0 2 []) 0x10000).tm
        ((detect_tm (scenario_mem 0x1000 0x1000 0 2 []) 0x10000).tm_pitch + 2 * 0),
        msg2.getD 0 0) :=
  have h := store_sequence_exact scenario_image 0x10000 (scenario_mem 0x1000 0x1000 0 2 [])
    (by decide)
  have hv := h.2.2.2.2 (by unfold image_loaded; decide)
    (by unfold msgs_clear_of_rows in_rows; decide)
  ⟨by decide, h.1, hv.1 0 (by decide), hv.2 0 (by decide)⟩

/-- C9: on the framebuffer path (magic 0x2BADB002, flags bit 12 set,
`framebuffer_type` 2) the base used is `framebuffer_addr` and the row pitch
used is `framebuffer_pitch` modulo 2^16: the cells of message 2 (stores 34
to 47) are written from `framebuffer_addr + framebuffer_pitch % 65536` on.
For `framebuffer_pitch` = 65536 + 200 row 1 starts at
`framebuffer_addr + 200`; for `framebuffer_pitch` = 65536 it starts at
`framebuffer_addr`, like row 0. -/
theorem framebuffer_pitch_mod_2_16 (img : Image) (mb_info_ptr : Nat) (mem : Mem)
    (hfb : text_framebuffer mem mb_info_ptr) :
    detect_tm mem mb_info_ptr =
      { have_tm := true, tm := mb_framebuffer_addr mem mb_info_ptr,
        tm_pitch := mb_framebuffer_pitch mem mb_info_ptr % 65536 } ∧
    (∀ j, j < 7 →
      ((kernel_main img 0x2BADB002 mb_info_ptr mem).trace[34 + 2 * j]?).map Prod.fst =
        some (ptr_add (mb_framebuffer_addr mem mb_info_ptr)
          (mb_framebuffer_pitch mem mb_info_ptr % 65536 + 2 * j)) ∧
      ((kernel_main img 0x2BADB002 mb_info_ptr mem).trace[34 + 2 * j + 1]?).map Prod.fst =
        some (ptr_add (mb_framebuffer_addr mem mb_info_ptr)
          (mb_framebuffer_pitch mem mb_info_ptr % 65536 + 2 * j + 1))) ∧
    (mb_framebuffer_pitch mem mb_info_ptr = 65536 + 200 →
      ((kernel_main img 0x2BADB002 mb_info_ptr mem).trace[34]?).map Prod.fst =
        some (ptr_add (mb_framebuffer_addr mem mb_info_ptr) 200)) ∧
    (mb_framebuffer_pitch mem mb_info_ptr = 65536 →
      ((kernel_main img 0x2BADB002 mb_info_ptr mem).trace[34]?).map Prod.fst =
        some (mb_framebuffer_addr mem mb_info_ptr) ∧
      ((kernel_main img 0x2BADB002 mb_info_ptr mem).trace[0]?).map Prod.fst =
        some (mb_framebuffer_addr mem mb_info_ptr)) := by
  have hd : detect_tm mem mb_info_ptr =
      { have_tm := true, tm := mb_framebuffer_addr mem mb_info_ptr,
        tm_pitch := mb_framebuffer_pitch mem mb_info_ptr % 65536 } := by
    rw [detect_tm_eq, if_pos hfb]
  have ht := kernel_main_trace img mb_info_ptr mem (by rw [hd])
  rw [hd] at ht
  simp only [] at ht
  rw [ht]
  have haddr : mb_framebuffer_addr mem mb_info_ptr < PTR_MOD := load64_lt _ _
  refine ⟨hd, ?_, ?_, ?_⟩
  · intro j hj
    have h := render_trace_row1 img (mb_framebuffer_addr mem mb_info_ptr)
      (mb_framebuffer_pitch mem mb_info_ptr % 65536) mem j hj
    refine ⟨h.1, ?_⟩
    rw [h.2]
    rfl
  · intro hp
    have h := (render_trace_row1 img (mb_framebuffer_addr mem mb_info_ptr)
      (mb_framebuffer_pitch mem mb_info_ptr % 65536) mem 0 (by omega)).1
    have e : mb_framebuffer_pitch mem mb_info_ptr % 65536 + 2 * 0 = 200 := by omega
    rw [e] at h
    exact h
  · intro hp
    have h := (render_trace_row1 img (mb_framebuffer_addr mem mb_info_ptr)
      (mb_framebuffer_pitch mem mb_info_ptr % 65536) mem 0 (by omega)).1
    have e : mb_framebuffer_pitch mem mb_info_ptr % 65536 + 2 * 0 = 0 := by omega
    rw [e, ptr_add_zero haddr] at h
    have h0 := (render_trace_row0 img (mb_framebuffer_addr mem mb_info_ptr)
      (mb_framebuffer_pitch mem mb_info_ptr % 65536) mem 0 (by omega)).1
    rw [ptr_add_zero haddr] at h0
    exact ⟨h, h0⟩

/-- Witness of C9: `framebuffer_addr` = 0x1000 and `framebuffer_pitch` =
65536: the used pitch is 0 and store 34 goes to 0x1000. -/
theorem framebuffer_pitch_mod_2_16_witness :
    text_framebuffer (scenario_mem 0x1000 0x1000 65536 2 []) 0x10000 ∧
    mb_framebuffer_pitch (scenario_mem 0x1000 0x1000 65536 2 []) 0x10000 = 65536 ∧
    detect_tm (scenario_mem 0x1000 0x1000 65536 2 []) 0x10000 =
      { have_tm := true
        tm := mb_framebuffer_addr (scenario_mem 0x1000 0x1000 65536 2 []) 0x10000
        tm_pitch := mb_framebuffer_pitch (scenario_mem 0x1000 0x1000 65536 2 []) 0x10000
          % 65536 } ∧
    ((kernel_main scenario_image 0x2BADB002 0x10000
      (scenario_mem 0x1000 0x1000 65536 2 [])).trace[34]?).map Prod.fst =
      some (mb_framebuffer_addr (scenario_mem 0x1000 0x1000 65536 2 []) 0x10000) :=
  have h := framebuffer_pitch_mod_2_16 scenario_image 0x10000
    (scenario_mem 0x1000 0x1000 65536 2 []) (by decide)
  ⟨by decide, by decide, h.1, (h.2.2.2 (by decide)).1⟩

/-- C10 (counterexample): with `framebuffer_addr` = &msg2 (0x100012) and
`framebuffer_pitch` 64 the target (0x100012, 64) is detected with pitch
64 ≥ 34, and after the call the byte at A + P + 2 is 0x40, not
msg2[1] = 'O' (79): the cells of message 1 were stored over `msg2` before
the second loop loaded it. -/
theorem round_trip_fails_over_msg2 :
    image_loaded scenario_image (scenario_mem 0x1000 0x100012 64 2 []) ∧
    detect_tm (scenario_mem 0x1000 0x100012 64 2 []) 0x10000 =
      { have_tm := true, tm := 0x100012, tm_pitch := 64 } ∧
    (kernel_main scenario_image 0x2BADB002 0x10000
      (scenario_mem 0x1000 0x100012 64 2 [])).mem (0x100012 + 64 + 2 * 1) = 0x40 ∧
    (kernel_main scenario_image 0x2BADB002 0x10000
      (scenario_mem 0x1000 0x100012 64 2 [])).mem (0x100012 + 64 + 2 * 1) ≠ msg2.getD 1 0 := by
  unfold image_loaded
  decide

/-- C10 (amended): for every run of `kernel_main` with magic 0x2BADB002 in
which a display target with base A and used 16-bit row pitch P is detected:
if P ≥ 34, no address of row 0 (A + x, x < 34) is an address of row 1
(A + P + y, y < 14). When moreover the arrays hold their initialisers at
entry and none of the bytes loaded from them lies in the two rows: for
P ≥ 34 the round trip holds in the memory after the call; for P < 34 the
first store of message 2 goes to an address of row 0, and the byte there
after the call is that of message 2; the cells of message 2 are in place for
every P. -/
theorem rows_disjoint_round_trip (img : Image) (mb_info_ptr : Nat) (mem : Mem)
    (hdet : (detect_tm mem mb_info_ptr).have_tm = true) :
    (34 ≤ (detect_tm mem mb_info_ptr).tm_pitch →
      ∀ x y, x < 34 → y < 14 →
        ptr_add (detect_tm mem mb_info_ptr).tm x ≠
          ptr_add (detect_tm mem mb_info_ptr).tm ((detect_tm mem mb_info_ptr).tm_pitch + y)) ∧
    (image_loaded img mem →
      msgs_clear_of_rows img (detect_tm mem mb_info_ptr).tm
        (detect_tm mem mb_info_ptr).tm_pitch →
      (34 ≤ (detect_tm mem mb_info_ptr).tm_pitch →
        round_trip (kernel_main img 0x2BADB002 mb_info_ptr mem).mem
          (detect_tm mem mb_info_ptr).tm (detect_tm mem mb_info_ptr).tm_pitch) ∧
      ((detect_tm mem mb_info_ptr).tm_pitch < 34 →
        ∃ x, x < 34 ∧
          (kernel_main img 0x2BADB002 mb_info_ptr mem).trace[34]? =
            some (ptr_add (detect_tm mem mb_info_ptr).tm x, msg2.getD 0 0) ∧
          (kernel_main img 0x2BADB002 mb_info_ptr mem).mem
            (ptr_add (detect_tm mem mb_info_ptr).tm x) = msg2.getD 0 0) ∧
      round_trip_row1 (kernel_main img 0x2BADB002 mb_info_ptr mem).mem
        (detect_tm mem mb_info_ptr).tm (detect_tm mem mb_info_ptr).tm_pitch) := by
  have hP := (detect_tm_bounds mem mb_info_ptr).2
  refine ⟨fun h34 x y hx hy => rows_disjoint _ _ hP h34 x y hx hy, ?_⟩
  intro himg hclear
  rw [kernel_main_mem img mb_info_ptr mem hdet himg hclear,
    kernel_main_trace_clear img mb_info_ptr mem hdet himg hclear]
  refine ⟨fun h34 => (round_trip_render_iff _ _ mem hP).mpr (Or.inr h34), ?_,
    render_mem_row1 _ _ mem⟩
  intro hlt
  refine ⟨(detect_tm mem mb_info_ptr).tm_pitch, hlt, ?_, ?_⟩
  · exact (render_stores_row1 _ _ 0 (by omega)).1
  · exact (render_mem_row1 _ _ mem 0 (by omega)).1

/-- Witness of C10 (amended): the target (0x1000, 200) of Scenario 1, with
the arrays at 1 MiB. -/
theorem rows_disjoint_round_trip_witness :
    (detect_tm (scenario_mem 0x1000 0x1000 200 2 []) 0x10000).have_tm = true ∧
    34 ≤ (detect_tm (scenario_mem 0x1000 0x1000 200 2 []) 0x10000).tm_pitch ∧
    image_loaded scenario_image (scenario_mem 0x1000 0x1000 200 2 []) ∧
    round_trip (kernel_main scenario_image 0x2BADB002 0x10000
        (scenario_mem 0x1000 0x1000 200 2 [])).mem
      (detect_tm (scenario_mem 0x1000 0x1000 200 2 []) 0x10000).tm
      (detect_tm (scenario_mem 0x1000 0x1000 200 2 []) 0x10000).tm_pitch :=
  have himg : image_loaded scenario_image (scenario_mem 0x1000 0x1000 200 2 []) := by
    unfold image_loaded; decide
  ⟨by decide, by decide, himg,
    ((rows_disjoint_round_trip scenario_image 0x10000 (scenario_mem 0x1000 0x1000 200 2 [])
      (by decide)).2 himg (by unfold msgs_clear_of_rows in_rows; decide)).1 (by decide)⟩

/-- C11: frame. For every call of `kernel_main` with magic 0x2BADB002 that
detects a display target with base A and used row pitch P, every address
that is neither one of the 34 bytes from A nor one of the 14 bytes from
A + P (64-bit pointer arithmetic) holds the same byte after the call as
before it. In particular the boot information block is unmodified when none
of its bytes lies in those ranges, and so are the bytes of the loader name,
whatever its length. When neither range crosses the end of the address space
the ranges are the intervals [A, A+34) and [A+P, A+P+14). -/
theorem frame_outside_rows (img : Image) (mb_info_ptr : Nat) (mem : Mem)
    (hdet : (detect_tm mem mb_info_ptr).have_tm = true) :
    (∀ a, ¬ in_rows (detect_tm mem mb_info_ptr).tm (detect_tm mem mb_info_ptr).tm_pitch a →
      (kernel_main img 0x2BADB002 mb_info_ptr mem).mem a = mem a) ∧
    ((∀ a, in_boot_block mb_info_ptr a →
        ¬ in_rows (detect_tm mem mb_info_ptr).tm (detect_tm mem mb_info_ptr).tm_pitch a) →
      ∀ a, in_boot_block mb_info_ptr a →
        (kernel_main img 0x2BADB002 mb_info_ptr mem).mem a = mem a) ∧
    (∀ n, (∀ k, k < n →
        ¬ in_rows (detect_tm mem mb_info_ptr).tm (detect_tm mem mb_info_ptr).tm_pitch
          (mb_boot_loader_name mem mb_info_ptr + k)) →
      ∀ k, k < n →
        (kernel_main img 0x2BADB002 mb_info_ptr mem).mem (mb_boot_loader_name mem mb_info_ptr + k)
          = mem (mb_boot_loader_name mem mb_info_ptr + k)) ∧
    ((detect_tm mem mb_info_ptr).tm + 34 ≤ PTR_MOD →
      (detect_tm mem mb_info_ptr).tm + (detect_tm mem mb_info_ptr).tm_pitch + 14 ≤ PTR_MOD →
      ∀ a, ¬ ((detect_tm mem mb_info_ptr).tm ≤ a ∧ a < (detect_tm mem mb_info_ptr).tm + 34) →
        ¬ ((detect_tm mem mb_info_ptr).tm + (detect_tm mem mb_info_ptr).tm_pitch ≤ a ∧
            a < (detect_tm mem mb_info_ptr).tm + (detect_tm mem mb_info_ptr).tm_pitch + 14) →
        (kernel_main img 0x2BADB002 mb_info_ptr mem).mem a = mem a) := by
  have hframe : ∀ a,
      ¬ in_rows (detect_tm mem mb_info_ptr).tm (detect_tm mem mb_info_ptr).tm_pitch a →
      (kernel_main img 0x2BADB002 mb_info_ptr mem).mem a = mem a :=
    fun a ha => kernel_main_frame img mb_info_ptr mem hdet a ha
  refine ⟨hframe, fun hb a ha => hframe a (hb a ha), fun n hn k hk => hframe _ (hn k hk), ?_⟩
  intro h0 h1 a ha0 ha1
  apply hframe
  rintro (⟨x, hx, e⟩ | ⟨y, hy, e⟩)
  · rw [ptr_add_eq_add (by omega)] at e
    omega
  · rw [ptr_add_eq_add (by omega)] at e
    omega

/-- Witness of C11: the target (0x1000, 200) of Scenario 1, with the boot
block at 0x10000: the first byte of the block, the byte just after row 0 and
the byte just before row 1 are unchanged. -/
theorem frame_outside_rows_witness :
    (detect_tm (scenario_mem 0x1000 0x1000 200 2 []) 0x10000).have_tm = true ∧
    (kernel_main scenario_image 0x2BADB002 0x10000 (scenario_mem 0x1000 0x1000 200 2 [])).mem 0x10000
      = scenario_mem 0x1000 0x1000 200 2 [] 0x10000 ∧
    (kernel_main scenario_image 0x2BADB002 0x10000 (scenario_mem 0x1000 0x1000 200 2 [])).mem (0x1000 + 34)
      = scenario_mem 0x1000 0x1000 200 2 [] (0x1000 + 34) ∧
    (kernel_main scenario_image 0x2BADB002 0x10000 (scenario_mem 0x1000 0x1000 200 2 [])).mem (0x1000 + 199)
      = scenario_mem 0x1000 0x1000 200 2 [] (0x1000 + 199) :=
  have h := (frame_outside_rows scenario_image 0x10000 (scenario_mem 0x1000 0x1000 200 2 [])
    (by decide)).2.2.2 (by decide) (by decide)
  ⟨by decide, h 0x10000 (by decide) (by decide), h (0x1000 + 34) (by decide) (by decide),
    h (0x1000 + 199) (by decide) (by decide)⟩

/-- C12: on the legacy fallback path (magic 0x2BADB002, framebuffer path not
taken, flags bit 9 set, loader name "qemu"; target 0xB8000, pitch 160) the
34 stores of message 1 go to the consecutive addresses 0xB8000 .. 0xB8021,
which lie in row 0, the 14 stores of message 2 go to the consecutive
addresses 0xB80A0 .. 0xB80AD, which lie in row 1, both messages are shorter
than 80 cells, and every store lies inside the 80x25 text buffer
[0xB8000, 0xB8000 + 4000). -/
theorem legacy_no_row_overflow (img : Image) (mb_info_ptr : Nat) (mem : Mem)
    (hfb : ¬ text_framebuffer mem mb_info_ptr)
    (h9 : flag_set (mb_flags mem mb_info_ptr) 9 = true)
    (hq : qemu_bytes mem (mb_boot_loader_name mem mb_info_ptr)) :
    (detect_tm mem mb_info_ptr).tm = 0xB8000 ∧ (detect_tm mem mb_info_ptr).tm_pitch = 160 ∧
    (kernel_main img 0x2BADB002 mb_info_ptr mem).trace.length = 48 ∧
    (∀ k, k < 34 →
      ((kernel_main img 0x2BADB002 mb_info_ptr mem).trace[k]?).map Prod.fst = some (0xB8000 + k) ∧
      in_text_row 0 (0xB8000 + k)) ∧
    0xB8000 + 34 = 0xB8022 ∧
    (∀ k, k < 14 →
      ((kernel_main img 0x2BADB002 mb_info_ptr mem).trace[34 + k]?).map Prod.fst
        = some (0xB80A0 + k) ∧
      in_text_row 1 (0xB80A0 + k)) ∧
    0xB80A0 + 14 = 0xB80AE ∧
    sizeof_msg1 - 1 < 80 ∧ sizeof_msg2 - 1 < 80 ∧
    (∀ s ∈ (kernel_main img 0x2BADB002 mb_info_ptr mem).trace, in_text_buffer s.1) := by
  have hd : detect_tm mem mb_info_ptr = { have_tm := true, tm := 0xB8000, tm_pitch := 160 } := by
    rw [detect_tm_eq, if_neg hfb, if_pos ⟨h9, hq⟩]
  have ht := kernel_main_trace img mb_info_ptr mem (by rw [hd])
  rw [hd] at ht
  simp only [] at ht
  rw [ht, hd]
  refine ⟨rfl, rfl, render_trace_length _ _ _ _, ?_, by decide, ?_, by decide, by decide,
    by decide, ?_⟩
  · intro k hk
    refine ⟨?_, ?_⟩
    · rw [render_trace_addr]
      exact legacy_row0_addresses k hk
    · unfold in_text_row
      omega
  · intro k hk
    refine ⟨?_, ?_⟩
    · rw [render_trace_addr]
      exact legacy_row1_addresses k hk
    · unfold in_text_row
      omega
  · intro s hs
    have h1 : s.1 ∈ (render_trace img 0xB8000 160 mem).map Prod.fst := List.mem_map_of_mem _ hs
    rw [render_trace_addrs, List.mem_map] at h1
    obtain ⟨r, hr, e⟩ := h1
    have hb := legacy_store_bounds r hr
    unfold in_text_buffer
    omega

/-- Witness of C12: flags = 0x1200 (bits 9 and 12) with `framebuffer_type`
1, so the framebuffer path is not taken, and the name "qemu": the last store
of message 1 goes to 0xB8021 and the last store of message 2 to 0xB80AD. -/
theorem legacy_no_row_overflow_witness :
    ¬ text_framebuffer (scenario_mem 0x1200 0x1000 200 1 [113, 101, 109, 117, 0]) 0x10000 ∧
    ((kernel_main scenario_image 0x2BADB002 0x10000
      (scenario_mem 0x1200 0x1000 200 1 [113, 101, 109, 117, 0])).trace[33]?).map Prod.fst
      = some (0xB8000 + 33) ∧
    ((kernel_main scenario_image 0x2BADB002 0x10000
      (scenario_mem 0x1200 0x1000 200 1 [113, 101, 109, 117, 0])).trace[34 + 13]?).map Prod.fst
      = some (0xB80A0 + 13) :=
  have h := legacy_no_row_overflow scenario_image 0x10000
    (scenario_mem 0x1200 0x1000 200 1 [113, 101, 109, 117, 0])
    (by decide) (by decide) (by decide)
  ⟨by decide, (h.2.2.2.1 33 (by decide)).1, (h.2.2.2.2.2.1 13 (by decide)).1⟩

end Multiboot
